import Mathlib

set_option maxRecDepth 100000

/-!
# Verification of the Housie ticket generator and validators

Shallow embedding of `src/utils/ticketGenerator.ts`,
`src/utils/fixExistingTickets.ts` and the inline validator / analyzer of the
admin component (`validateTicketFormat`, `analyzeTicket`).

Modelling conventions:
* JavaScript numbers that hold ticket values produced by this code are
  modelled as `Int` (the generator and the analyzer's reconstruction only
  ever handle integers); candidate values reaching the validators are
  arbitrary JS numbers and are modelled as `ℚ` (every IEEE double is a
  rational, and the validators only compare and count them).
* `Math.random()` is modelled by an infinite stream of naturals together with
  a cursor; `Math.floor(Math.random() * n)` becomes `stream cursor % n`.
* JavaScript exceptions (`throw new Error`) are modelled with
  `Except String`; the unbounded `while` loops of the generator are given
  explicit fuel, and fuel exhaustion is modelled as an `Except.error`
  (the corresponding JS would spin forever, so it never "returns a grid"
  either way).
* `new Set(xs).size` is modelled as `xs.dedup.length`.
-/

namespace Housie

/-! ## Column ranges (ticketGenerator.ts lines 19-29, 206-209) -/

def columnRanges : List (Int × Int) :=
  [(1, 9), (10, 19), (20, 29), (30, 39), (40, 49),
   (50, 59), (60, 69), (70, 79), (80, 90)]

def rangeMin (c : Nat) : Int := (columnRanges.getD c (0, 0)).1

def rangeMax (c : Nat) : Int := (columnRanges.getD c (0, 0)).2

/-- The list `min..max` of numbers of column `c`
(the `for (let n = min; n <= max; n++)` loops of the generator). -/
def rangeList (c : Nat) : List Int :=
  (List.range ((rangeMax c - rangeMin c).toNat + 1)).map
    (fun k : Nat => rangeMin c + (k : Int))

/-! ## Random source -/

/-- A pure stand-in for `Math.random()`: an infinite stream of naturals plus a
cursor.  Every call consumes one stream element. -/
structure Rng where
  f : Nat → Nat
  idx : Nat

/-- `Math.floor(Math.random() * n)` : a value in `[0, n)` (for `n > 0`). -/
def randBelow (n : Nat) (r : Rng) : Nat × Rng :=
  (r.f r.idx % n, ⟨r.f, r.idx + 1⟩)

/-! ## Small list helpers -/

/-- Insert into a sorted list, used to model `.sort((a, b) => a - b)`. -/
def insertSorted (x : Int) : List Int → List Int
  | [] => [x]
  | y :: ys => if x ≤ y then x :: y :: ys else y :: insertSorted x ys

/-- Insertion sort, models the JS ascending numeric `.sort((a, b) => a - b)`. -/
def sortInts : List Int → List Int
  | [] => []
  | x :: xs => insertSorted x (sortInts xs)

/-- Swap two positions of a list (the destructuring swap of `shuffleArray`). -/
def listSwap (a : List Int) (i j : Nat) : List Int :=
  let x := a.getD i 0
  let y := a.getD j 0
  (a.set i y).set j x

/-- The body of `shuffleArray` (ticketGenerator.ts lines 172-177):
Fisher-Yates, `i` running from `array.length - 1` down to `1`,
`j = Math.floor(Math.random() * (i + 1))`. -/
def shuffleGo : Nat → List Int → Rng → List Int × Rng
  | 0, a, r => (a, r)
  | i + 1, a, r =>
    let jr := randBelow (i + 2) r
    shuffleGo i (listSwap a (i + 1) jr.1) jr.2

def shuffleArray (a : List Int) (r : Rng) : List Int × Rng :=
  shuffleGo (a.length - 1) a r

/-! ## Phase 1 of the generator: choosing the numbers of each column
(ticketGenerator.ts lines 31-122) -/

/-- State of the number-selection phase: `columnNumbers`, `columnCounts`,
`totalNumbers`, the `columnsToUse` set (as 9 membership flags) and the
random source. -/
structure SelState where
  colNums : List (List Int)
  colCounts : List Nat
  total : Nat
  used : List Bool
  rng : Rng

def initSelState (r : Rng) : SelState :=
  ⟨List.replicate 9 [], List.replicate 9 0, 0, List.replicate 9 false, r⟩

/-- `availableNumbers`: the column's range minus the already chosen numbers. -/
def availableFor (s : SelState) (col : Nat) : List Int :=
  (rangeList col).filter (fun n => !(s.colNums.getD col []).contains n)

/-- Body of the first sweep for one column (lines 52-80). -/
def loop1Col (s : SelState) (col : Nat) : SelState :=
  if s.colCounts.getD col 0 < 3 then
    let canAdd := min (3 - s.colCounts.getD col 0) (15 - s.total)
    let br := randBelow 2 s.rng
    let numbersToAdd := min canAdd (br.1 + 1)
    let counts1 := s.colCounts.set col (s.colCounts.getD col 0 + numbersToAdd)
    let total1 := s.total + numbersToAdd
    let used1 := s.used.set col true
    let avail := availableFor s col
    if numbersToAdd ≤ avail.length then
      let sh := shuffleArray avail br.2
      let selected := sortInts (sh.1.take numbersToAdd)
      { colNums := s.colNums.set col (s.colNums.getD col [] ++ selected),
        colCounts := counts1, total := total1, used := used1, rng := sh.2 }
    else
      { colNums := s.colNums.set col (s.colNums.getD col [] ++ sortInts avail),
        colCounts := counts1.set col (counts1.getD col 0 - (numbersToAdd - avail.length)),
        total := total1 - (numbersToAdd - avail.length),
        used := used1, rng := br.2 }
  else s

/-- One pass of the `for (let col = 0; col < 9 && totalNumbers < 15; col++)`
sweep (lines 51-81). -/
def loop1Pass (s : SelState) : SelState :=
  (List.range 9).foldl (fun s col => if s.total < 15 then loop1Col s col else s) s

/-- The outer `while (totalNumbers < targetNumbers)` with the
`columnsToUse.size === 9` safety break (lines 50-85), fueled. -/
def loop1 : Nat → SelState → Option SelState
  | 0, _ => none
  | fuel + 1, s =>
    if 15 ≤ s.total then some s
    else
      let s' := loop1Pass s
      if s'.used.count true == 9 then some s' else loop1 fuel s'

/-- One iteration of the top-up loop body (lines 88-110): the first column
with spare capacity and an unused in-range number receives one random number
(pushed then re-sorted). -/
def loop2Step (s : SelState) : Option SelState :=
  match (List.range 9).find?
      (fun c => s.colCounts.getD c 0 < 3 && !(availableFor s c).isEmpty) with
  | none => none
  | some c =>
    let avail := availableFor s c
    let jr := randBelow avail.length s.rng
    let n := avail.getD jr.1 0
    some { colNums := s.colNums.set c (sortInts (s.colNums.getD c [] ++ [n])),
           colCounts := s.colCounts.set c (s.colCounts.getD c 0 + 1),
           total := s.total + 1,
           used := s.used, rng := jr.2 }

def loop2 : Nat → SelState → Option SelState
  | 0, _ => none
  | fuel + 1, s =>
    if 15 ≤ s.total then some s
    else
      match loop2Step s with
      | none => none
      | some s' => loop2 fuel s'

/-- One iteration of the excess-removal loop body (lines 113-122): the first
non-empty column loses its last (largest) number. -/
def loop3Step (s : SelState) : Option SelState :=
  match (List.range 9).find? (fun c => !(s.colNums.getD c []).isEmpty) with
  | none => none
  | some c =>
    some { colNums := s.colNums.set c (s.colNums.getD c []).dropLast,
           colCounts := s.colCounts.set c (s.colCounts.getD c 0 - 1),
           total := s.total - 1, used := s.used, rng := s.rng }

def loop3 : Nat → SelState → Option SelState
  | 0, _ => none
  | fuel + 1, s =>
    if s.total ≤ 15 then some s
    else
      match loop3Step s with
      | none => none
      | some s' => loop3 fuel s'

def selectNumbers (r : Rng) : Option SelState :=
  loop1 40 (initSelState r) >>= loop2 40 >>= loop3 40

/-! ## Phase 2 of the generator: greedy row placement
(ticketGenerator.ts lines 124-154) -/

/-- A 3x9 grid of cells; `0` is an empty cell. -/
abbrev Grid := List (List Int)

def cell (g : Grid) (r c : Nat) : Int := (g.getD r []).getD c 0

def setCell (g : Grid) (r c : Nat) (v : Int) : Grid :=
  g.set r ((g.getD r []).set c v)

def emptyGrid : Grid := List.replicate 3 (List.replicate 9 (0 : Int))

structure PlaceState where
  grid : Grid
  rowCounts : List Nat

/-- The `bestRow` scan (lines 141-148) over a given row list:
eligible rows have fewer than 5 numbers and a free cell in the column;
among eligible rows the one with the strictly fewest numbers wins,
first (lowest-index) encountered on ties. -/
def findBestRowGo (rowCounts : List Nat) (free : List Bool) :
    List Nat → Option Nat → Option Nat
  | [], best => best
  | row :: rest, best =>
    if rowCounts.getD row 0 < 5 && free.getD row false then
      match best with
      | none => findBestRowGo rowCounts free rest (some row)
      | some b =>
        if rowCounts.getD row 0 < rowCounts.getD b 0 then
          findBestRowGo rowCounts free rest (some row)
        else
          findBestRowGo rowCounts free rest (some b)
    else
      findBestRowGo rowCounts free rest best

def findBestRow (rowCounts : List Nat) (free : List Bool) : Option Nat :=
  findBestRowGo rowCounts free [0, 1, 2] none

/-- The three `grid[row][col] === 0` flags of a column. -/
def freeAt (g : Grid) (col : Nat) : List Bool :=
  [cell g 0 col == 0, cell g 1 col == 0, cell g 2 col == 0]

/-- Placing one `{num, col}` entry (lines 139-154): if an eligible row exists
the number is written there and the row count bumped, otherwise the entry is
silently dropped. -/
def placeOne (st : PlaceState) (p : Int × Nat) : PlaceState :=
  match findBestRow st.rowCounts (freeAt st.grid p.2) with
  | none => st
  | some r =>
    { grid := setCell st.grid r p.2 p.1,
      rowCounts := st.rowCounts.set r (st.rowCounts.getD r 0 + 1) }

def placeAll (nums : List (Int × Nat)) (st : PlaceState) : PlaceState :=
  nums.foldl placeOne st

/-- Stable insertion by column, modelling the (stable) JS
`allNumbers.sort((a, b) => a.col - b.col)` (line 136). -/
def insertByCol (p : Int × Nat) : List (Int × Nat) → List (Int × Nat)
  | [] => [p]
  | q :: qs => if p.2 ≤ q.2 then p :: q :: qs else q :: insertByCol p qs

def sortPairsByCol : List (Int × Nat) → List (Int × Nat)
  | [] => []
  | p :: ps => insertByCol p (sortPairsByCol ps)

/-- `allNumbers` (lines 128-136): every chosen number tagged with its column,
collected column by column, then (stably) sorted by column. -/
def buildAllNumbers (colNums : List (List Int)) : List (Int × Nat) :=
  sortPairsByCol
    ((List.range 9).flatMap (fun c => (colNums.getD c []).map (fun n => (n, c))))

/-! ## The final self-check `validateTicket` (ticketGenerator.ts 179-231) -/

def rowNumbersCount (g : Grid) (r : Nat) : Nat :=
  ((g.getD r []).filter (fun x => x != 0)).length

def colNumbersCount (g : Grid) (c : Nat) : Nat :=
  (g.filter (fun row => row.getD c 0 != 0)).length

def allNumbersOf (g : Grid) : List Int :=
  g.flatten.filter (fun x => x != 0)

def rangeViolation (g : Grid) (c : Nat) : Option Nat :=
  (List.range 3).find? (fun r =>
    cell g r c != 0 && (cell g r c < rangeMin c || rangeMax c < cell g r c))

def validateTicketE (g : Grid) : Except String Unit :=
  match (List.range 3).find? (fun r => rowNumbersCount g r != 5) with
  | some r =>
    .error ("Invalid ticket: Row " ++ toString r ++ " has " ++
      toString (rowNumbersCount g r) ++ " numbers instead of 5")
  | none =>
  match (List.range 9).find? (fun c => 3 < colNumbersCount g c) with
  | some c =>
    .error ("Invalid ticket: Column " ++ toString c ++ " has " ++
      toString (colNumbersCount g c) ++ " numbers, maximum allowed is 3")
  | none =>
  if (allNumbersOf g).length ≠ 15 then
    .error ("Invalid ticket: Has " ++ toString (allNumbersOf g).length ++
      " numbers instead of 15")
  else
  match (List.range 9).find? (fun c => (rangeViolation g c).isSome) with
  | some c => .error ("Invalid ticket: Number in column " ++ toString c ++
      " is outside allowed range")
  | none =>
  if (allNumbersOf g).length ≠ (allNumbersOf g).dedup.length then
    .error "Invalid ticket: Contains duplicate numbers"
  else
    .ok ()

/-! ## `generateHousieTicket` (ticketGenerator.ts 17-170) -/

structure TicketResult where
  grid : Grid
  flatNumbers : List Int
deriving DecidableEq

/-- The flat-array extraction of lines 160-167: row-major walk over the
3x9 index space collecting the non-zero cells. -/
def extractFlat (g : Grid) : List Int :=
  (List.range 3).flatMap (fun r =>
    ((List.range 9).map (fun c => cell g r c)).filter (fun x => x != 0))

/-- The grid as placed by phase 2, before the final self-check. -/
def placedGrid (s : SelState) : Grid :=
  (placeAll (buildAllNumbers s.colNums) ⟨emptyGrid, [0, 0, 0]⟩).grid

def generateHousieTicket (r : Rng) : Except String TicketResult :=
  match selectNumbers r with
  | none => .error "generator loop fuel exhausted"
  | some s =>
    match validateTicketE (placedGrid s) with
    | .error e => .error e
    | .ok _ => .ok ⟨placedGrid s, sortInts (extractFlat (placedGrid s))⟩

/-! ## `convertFlatToGrid` (ticketGenerator.ts 237-258) -/

def convertFlatToGrid (flatNumbers : List Int) (r : Rng) : Except String Grid :=
  if flatNumbers.length ≠ 15 then
    .error ("Expected 15 numbers, got " ++ toString flatNumbers.length)
  else
    match generateHousieTicket r with
    | .error e => .error e
    | .ok t => .ok t.grid

/-! ## The validators -/

/-- A dynamically-typed JavaScript value, as far as the validators care.
A JS number is any IEEE double, so the payload of `num` is a rational, not
an integer: the validators accept values like `19.5`. -/
inductive JSVal where
  | num (n : ℚ)
  | str (s : String)
  | arr (xs : List JSVal)
  | bool (b : Bool)
  | null

/-- JS `Array.prototype.flat()` with default depth 1. -/
def jsFlat (xs : List JSVal) : List JSVal :=
  xs.flatMap (fun v => match v with | .arr ys => ys | _ => [v])

/-- `validNumbers = ticketNumbers.filter(n => typeof n === 'number' && n > 0)`. -/
def validNumbersOf (xs : List JSVal) : List ℚ :=
  xs.filterMap (fun v =>
    match v with
    | .num n => if 0 < n then some n else none
    | _ => none)

def countIssues (valid : List ℚ) : List String :=
  if valid.length ≠ 15 then
    ["Has " ++ toString valid.length ++ " numbers instead of 15"]
  else []

def dupIssues (valid : List ℚ) : List String :=
  if valid.dedup.length ≠ valid.length then ["Contains duplicate numbers"]
  else []

def rangeIssues (valid : List ℚ) : List String :=
  valid.filterMap (fun n =>
    if n < 1 || 90 < n then
      some ("Number " ++ toString n ++ " is outside valid range 1-90")
    else none)

/-- The first column range containing `n`
(the inner `for (let col = 0; ...) { if (num >= min && num <= max) break }`),
on the integer ticket numbers handled by the analyzer. -/
def bucketFind (n : Int) : Option Nat :=
  (List.range 9).find? (fun c => rangeMin c ≤ n && n ≤ rangeMax c)

/-- One step of the `columnCounts` accumulation: a value in some column range
bumps that (first matching) column's bucket, anything else falls through. -/
def bucketStep (counts : List Nat) (n : Int) : List Nat :=
  match bucketFind n with
  | some c => counts.set c (counts.getD c 0 + 1)
  | none => counts

/-- The `columnCounts` accumulation on integer ticket numbers
(`analyzeTicket`). -/
def bucketCounts (valid : List Int) : List Nat :=
  valid.foldl bucketStep (List.replicate 9 0)

/-- The same first-matching-range scan on an arbitrary JS number: a value in
the open gap between two ranges (such as `19.5`) matches no column. -/
def bucketFindQ (n : ℚ) : Option Nat :=
  (List.range 9).find? (fun c => (rangeMin c : ℚ) ≤ n && n ≤ (rangeMax c : ℚ))

/-- One step of the validators' `columnCounts` accumulation. -/
def bucketStepQ (counts : List Nat) (n : ℚ) : List Nat :=
  match bucketFindQ n with
  | some c => counts.set c (counts.getD c 0 + 1)
  | none => counts

/-- The `columnCounts` accumulation of both validators, over the coerced
JS numbers. -/
def bucketCountsQ (valid : List ℚ) : List Nat :=
  valid.foldl bucketStepQ (List.replicate 9 0)

def columnIssues (counts : List Nat) : List String :=
  (List.range 9).filterMap (fun c =>
    if 3 < counts.getD c 0 then
      some ("Column " ++ toString (c + 1) ++ " has " ++
        toString (counts.getD c 0) ++ " numbers (max 3 allowed)")
    else none)

structure ValidationReport where
  isValid : Bool
  issues : List String
deriving DecidableEq

/-- The issue accumulation shared by `validateExistingTicket` and
`validateTicketFormat` (their check sequences are character-for-character
duplicates apart from the summary string): count issue, duplicate issue,
range issues, per-column overflow issues, then — when any column overflowed —
the summary issue. -/
def ticketIssues (xs : List JSVal) (summary : String) : List String :=
  countIssues (validNumbersOf xs) ++ dupIssues (validNumbersOf xs) ++
    rangeIssues (validNumbersOf xs) ++
    columnIssues (bucketCountsQ (validNumbersOf xs)) ++
    (if (columnIssues (bucketCountsQ (validNumbersOf xs))).isEmpty then []
     else [summary])

/-- The check sequence of `validateExistingTicket`
(fixExistingTickets.ts lines 29-80), applied to the coerced number list. -/
def checkTicketNumbers (xs : List JSVal) : ValidationReport :=
  { isValid :=
      (ticketIssues xs "Ticket needs regeneration for proper Housie format").isEmpty,
    issues := ticketIssues xs "Ticket needs regeneration for proper Housie format" }

/-- `validateExistingTicket` (fixExistingTickets.ts lines 15-84).
`JSON.parse` is a platform primitive, modelled by the `parse` parameter;
`parse s = none` models a parse exception, which the source catches into a
single issue, as does the `TypeError` raised by `.filter` on a parsed
non-array. -/
def validateExistingTicket (parse : String → Option JSVal) (v : JSVal) :
    ValidationReport :=
  match v with
  | .str s =>
    match parse s with
    | none => { isValid := false, issues := ["Error validating ticket: SyntaxError"] }
    | some (.arr xs) => checkTicketNumbers xs
    | some _ => { isValid := false, issues := ["Error validating ticket: TypeError"] }
  | .arr xs =>
    let ticketNumbers :=
      match xs.head? with
      | some (.arr _) => jsFlat xs
      | _ => xs
    checkTicketNumbers ticketNumbers
  | _ => { isValid := false, issues := ["Invalid number format"] }

/-- "Cannot be coerced into a numeric list": not a string, not an array, or
a string that fails to parse (the premise of claim C9). -/
def NotCoercible (parse : String → Option JSVal) : JSVal → Prop
  | .arr _ => False
  | .str s => parse s = none
  | .num _ => True
  | .bool _ => True
  | .null => True

structure FormatReport where
  isValid : Bool
  issues : List String
  columnCounts : List Nat
  isProperFormat : Bool
deriving DecidableEq

/-- `validateTicketFormat` of the admin tickets component (the file
concatenated after ticketGenerator.ts, lines 392-460).  Identical checks,
with a different summary string and the raw `columnCounts` returned.  The
`try/catch` of the source cannot fire (the body is total), so it is omitted. -/
def validateTicketFormat (xs : List JSVal) : FormatReport :=
  { isValid := (ticketIssues xs "Not proper Housie format").isEmpty,
    issues := ticketIssues xs "Not proper Housie format",
    columnCounts := bucketCountsQ (validNumbersOf xs),
    isProperFormat :=
      (columnIssues (bucketCountsQ (validNumbersOf xs))).isEmpty &&
        (ticketIssues xs "Not proper Housie format").isEmpty }

/-! ## Grid reconstruction inside `analyzeTicket` (admin component,
lines 495-617 of the concatenated file) -/

/-- The `bestRow` scan of the manual layout (lines 570-575):
`bestRow = 0`, then rows 1 and 2 take over on a strictly smaller count
(that is also below 5).  No free-cell check here. -/
def analyzeBestRow (rowCounts : List Nat) : Nat :=
  let b1 := if rowCounts.getD 1 0 < rowCounts.getD 0 0 && rowCounts.getD 1 0 < 5
    then 1 else 0
  let b2 := if rowCounts.getD 2 0 < rowCounts.getD b1 0 && rowCounts.getD 2 0 < 5
    then 2 else b1
  b2

/-- One placement of the manual layout (lines 569-581). -/
def analyzePlaceOne (st : PlaceState) (p : Int × Nat) : PlaceState :=
  if st.rowCounts.getD (analyzeBestRow st.rowCounts) 0 < 5 then
    { grid := setCell st.grid (analyzeBestRow st.rowCounts) p.2 p.1,
      rowCounts := st.rowCounts.set (analyzeBestRow st.rowCounts)
        (st.rowCounts.getD (analyzeBestRow st.rowCounts) 0 + 1) }
  else st

/-- `numbersbyColumn` with each column sorted ascending (lines 545-562):
group by first matching range, iterate columns in ascending key order. -/
def analyzeGroups (valid : List Int) : List (List Int) :=
  (List.range 9).map (fun c =>
    sortInts (valid.filter (fun n => bucketFind n == some c)))

def analyzeManualPlace (valid : List Int) : PlaceState :=
  (List.range 9).foldl
    (fun st c =>
      ((analyzeGroups valid).getD c []).foldl (fun st n => analyzePlaceOne st (n, c)) st)
    ⟨emptyGrid, [0, 0, 0]⟩

/-- One step of the incremental overflow detection of `analyzeTicket`
(lines 523-537): bump the bucket and remember whether it just exceeded 3. -/
def overflowStep (acc : List Nat × Bool) (n : Int) : List Nat × Bool :=
  match bucketFind n with
  | some c =>
    ((acc.1.set c (acc.1.getD c 0 + 1)),
      acc.2 || decide (3 < (acc.1.set c (acc.1.getD c 0 + 1)).getD c 0))
  | none => acc

/-- The column-overflow flag computed incrementally while bucketing
(lines 523-537). -/
def hasOverflowFold (valid : List Int) : Bool :=
  (valid.foldl overflowStep (List.replicate 9 0, false)).2

/-- The 3x5 fallback layout (lines 586-599 and the catch handler). -/
def fallbackGrid (nums : List Int) : Grid :=
  (List.range (min 15 nums.length)).foldl
    (fun g i =>
      if i / 5 < 3 && 0 < nums.getD i 0 then setCell g (i / 5) (i % 5) (nums.getD i 0)
      else g)
    emptyGrid

/-- The grid-construction part of `analyzeTicket` (lines 506-617).
The surrounding `try/catch` turns any `convertFlatToGrid` error into the
fallback layout, so the embedding is total. -/
def analyzeTicketGrid (ticketNumbers : List Int) (r : Rng) : Grid :=
  let validNumbers := ticketNumbers.filter (fun n => 0 < n)
  if validNumbers.length == 15 then
    if hasOverflowFold validNumbers then
      match convertFlatToGrid validNumbers r with
      | .ok g => g
      | .error _ => fallbackGrid ticketNumbers
    else (analyzeManualPlace validNumbers).grid
  else fallbackGrid ticketNumbers

/-! ## The six ticket invariants of the specification (spec section 3) -/

/-- Invariant 1: exactly 15 non-empty cells. -/
def TotalIs15 (g : Grid) : Prop := (allNumbersOf g).length = 15

/-- Invariant 2: exactly 5 non-empty cells in each of the 3 rows. -/
def RowsHave5 (g : Grid) : Prop := ∀ r < 3, rowNumbersCount g r = 5

/-- Invariant 3: at most 3 non-empty cells in each of the 9 columns. -/
def ColsAtMost3 (g : Grid) : Prop := ∀ c < 9, colNumbersCount g c ≤ 3

/-- Invariant 4: every non-empty cell's value lies in its column's range. -/
def CellsInRange (g : Grid) : Prop :=
  ∀ c < 9, ∀ r < 3, cell g r c ≠ 0 →
    rangeMin c ≤ cell g r c ∧ cell g r c ≤ rangeMax c

/-- Invariant 5: the 15 values are pairwise distinct. -/
def AllDistinct (g : Grid) : Prop := (allNumbersOf g).Nodup

/-- The non-empty cells of column `c`, top row first. -/
def colCells (g : Grid) (c : Nat) : List Int :=
  ((List.range 3).map (fun r => cell g r c)).filter (fun x => x != 0)

/-- Executable strict-ascending check on a list. -/
def ascendingB : List Int → Bool
  | [] => true
  | [_] => true
  | x :: y :: rest => x < y && ascendingB (y :: rest)

/-- Invariant 6: inside every column the values strictly increase going down. -/
def ColsAscending (g : Grid) : Prop :=
  ∀ c < 9, List.Chain' (· < ·) (colCells g c)

theorem ascendingB_iff_chain :
    ∀ l : List Int, ascendingB l = true ↔ List.Chain' (· < ·) l
  | [] => by simp [ascendingB]
  | [x] => by simp [ascendingB]
  | x :: y :: rest => by
    rw [List.chain'_cons]
    simp only [ascendingB, Bool.and_eq_true, decide_eq_true_eq]
    exact and_congr Iff.rfl (ascendingB_iff_chain (y :: rest))

instance (g : Grid) : Decidable (TotalIs15 g) :=
  inferInstanceAs (Decidable ((allNumbersOf g).length = 15))

instance (g : Grid) : Decidable (RowsHave5 g) :=
  inferInstanceAs (Decidable (∀ r < 3, rowNumbersCount g r = 5))

instance (g : Grid) : Decidable (ColsAtMost3 g) :=
  inferInstanceAs (Decidable (∀ c < 9, colNumbersCount g c ≤ 3))

instance (g : Grid) : Decidable (CellsInRange g) :=
  inferInstanceAs (Decidable (∀ c < 9, ∀ r < 3, cell g r c ≠ 0 →
    rangeMin c ≤ cell g r c ∧ cell g r c ≤ rangeMax c))

instance (g : Grid) : Decidable (AllDistinct g) :=
  inferInstanceAs (Decidable ((allNumbersOf g).Nodup))

instance (g : Grid) : Decidable (ColsAscending g) :=
  decidable_of_iff (∀ c < 9, ascendingB (colCells g c) = true)
    (forall_congr' fun _ => imp_congr Iff.rfl (ascendingB_iff_chain _))

instance {α : Type} [DecidableEq α] : DecidableEq (Except String α) := fun x y =>
  match x, y with
  | .error a, .error b =>
    if h : a = b then .isTrue (by rw [h]) else .isFalse (by simp [h])
  | .ok a, .ok b =>
    if h : a = b then .isTrue (by rw [h]) else .isFalse (by simp [h])
  | .error _, .ok _ => .isFalse (by simp)
  | .ok _, .error _ => .isFalse (by simp)

/-! ## Helper lemmas -/

theorem nodup_of_dedup_length {l : List Int} (h : l.length = l.dedup.length) :
    l.Nodup := by
  have hs := List.dedup_sublist l
  have heq : l.dedup = l := hs.eq_of_length h.symm
  rw [← heq]
  exact List.nodup_dedup l

/-- Extracting the facts certified by the generator's final self-check:
`validateTicket` throwing on every violation means that a grid it lets
through satisfies invariants 1-5. -/
theorem validateTicketE_ok_invariants {g : Grid}
    (h : validateTicketE g = .ok ()) :
    TotalIs15 g ∧ RowsHave5 g ∧ ColsAtMost3 g ∧ CellsInRange g ∧
      AllDistinct g := by
  unfold validateTicketE at h
  split at h
  · exact absurd h (by simp)
  next hrow =>
  split at h
  · exact absurd h (by simp)
  next hcol =>
  split at h
  · exact absurd h (by simp)
  next htot =>
  split at h
  · exact absurd h (by simp)
  next hrange =>
  split at h
  · exact absurd h (by simp)
  next hdup =>
  rw [List.find?_eq_none] at hrow hcol hrange
  refine ⟨by unfold TotalIs15; omega, ?_, ?_, ?_, ?_⟩
  · intro r hr
    have := hrow r (List.mem_range.mpr hr)
    simpa using this
  · intro c hc
    have := hcol c (List.mem_range.mpr hc)
    simp at this
    omega
  · intro c hc r hr hne
    have := hrange c (List.mem_range.mpr hc)
    simp only [Option.isSome_iff_exists, not_exists] at this
    unfold rangeViolation at this
    by_contra hout
    have hmem : ∃ x ∈ List.range 3, (fun r =>
        cell g r c != 0 && (cell g r c < rangeMin c || rangeMax c < cell g r c)) x = true := by
      refine ⟨r, List.mem_range.mpr hr, ?_⟩
      simp only [bne_iff_ne, ne_eq, Bool.and_eq_true, decide_eq_true_eq,
        Bool.or_eq_true]
      exact ⟨hne, by omega⟩
    rcases List.find?_isSome.mpr hmem with h2
    rcases Option.isSome_iff_exists.mp h2 with ⟨x, hx⟩
    exact this x hx
  · exact nodup_of_dedup_length (by omega)

/-- A `generateHousieTicket` call that returns did pass the final self-check,
and its flat list is the sorted extraction of its grid. -/
theorem generateHousieTicket_ok_elim {r : Rng} {t : TicketResult}
    (h : generateHousieTicket r = .ok t) :
    validateTicketE t.grid = .ok () ∧
      t.flatNumbers = sortInts (extractFlat t.grid) := by
  unfold generateHousieTicket at h
  split at h
  · exact absurd h (by simp)
  next s hsel =>
  split at h
  · exact absurd h (by simp)
  next u hval =>
  simp only [Except.ok.injEq] at h
  subst h
  cases u
  exact ⟨hval, rfl⟩

/-! ## Concrete inputs used by witnesses and counterexamples -/

/-- A concrete random stream: every draw returns 1. -/
def wRng : Rng := ⟨fun _ => 1, 0⟩

/-- The ticket `generateHousieTicket` produces from the `wRng` stream. -/
def wTicket : TicketResult :=
  ⟨[[1, 12, 0, 30, 42, 0, 60, 0, 0],
    [3, 0, 20, 32, 0, 50, 62, 0, 0],
    [0, 10, 22, 0, 40, 52, 0, 70, 0]],
   [1, 3, 10, 12, 20, 22, 30, 32, 40, 42, 50, 52, 60, 62, 70]⟩

/-- A 15-number flat list that grossly violates the column invariant:
all of 1..15, so column 1 (range 1-9) holds 9 numbers. -/
def badFlat : List Int := [1, 2, 3, 4, 5, 6, 7, 8, 9, 10, 11, 12, 13, 14, 15]

/-! ## Claim theorems -/

/-- C1: every grid that `generateHousieTicket` returns (i.e. whenever it
returns rather than throwing) satisfies invariants 1-5: 15 non-empty cells,
5 per row, at most 3 per column, all values in their column range, all values
pairwise distinct. -/
theorem generated_ticket_invariants (r : Rng) (t : TicketResult)
    (h : generateHousieTicket r = .ok t) :
    TotalIs15 t.grid ∧ RowsHave5 t.grid ∧ ColsAtMost3 t.grid ∧
      CellsInRange t.grid ∧ AllDistinct t.grid :=
  validateTicketE_ok_invariants (generateHousieTicket_ok_elim h).1

/-- Witness for C1: the generator run on the all-ones stream returns
`wTicket`, whose grid satisfies invariants 1-5. -/
theorem generated_ticket_invariants_witness :
    TotalIs15 wTicket.grid ∧ RowsHave5 wTicket.grid ∧ ColsAtMost3 wTicket.grid ∧
      CellsInRange wTicket.grid ∧ AllDistinct wTicket.grid :=
  generated_ticket_invariants wRng wTicket (by decide)

/-- C4 (code-bug evidence): the generator run on the all-ones stream returns
a grid whose column 1 holds 12 in the top row above 10 in the bottom row, so
the documented "numbers arranged in ascending order within each column" does
not hold for returned grids. -/
theorem generated_ticket_not_column_sorted :
    generateHousieTicket wRng = .ok wTicket ∧ ¬ ColsAscending wTicket.grid :=
  ⟨by decide, by decide⟩

/-- C9: a candidate value that cannot be coerced to a number list (not a
string, not an array, or a string that fails to parse) is never thrown to the
caller: the validator reports invalid with exactly one issue. -/
theorem validateExistingTicket_malformed (parse : String → Option JSVal)
    (v : JSVal) (h : NotCoercible parse v) :
    (validateExistingTicket parse v).isValid = false ∧
    (validateExistingTicket parse v).issues.length = 1 := by
  cases v with
  | num n => exact ⟨rfl, rfl⟩
  | bool b => exact ⟨rfl, rfl⟩
  | null => exact ⟨rfl, rfl⟩
  | arr xs => exact absurd h (by simp [NotCoercible])
  | str s =>
    have hp : parse s = none := h
    simp [validateExistingTicket, hp]

/-- Witness for C9: the null candidate with a failing parser. -/
theorem validateExistingTicket_malformed_witness :
    (validateExistingTicket (fun _ => none) JSVal.null).isValid = false ∧
    (validateExistingTicket (fun _ => none) JSVal.null).issues.length = 1 :=
  validateExistingTicket_malformed (fun _ => none) JSVal.null
    (by simp [NotCoercible])

/-- C10: a flat list whose length is not 15 makes `convertFlatToGrid` throw
an error naming the actual count without invoking the generator, and the
generator is invoked exactly when the length is 15. -/
theorem convertFlatToGrid_length_gate (nums : List Int) (r : Rng) :
    (nums.length ≠ 15 →
      convertFlatToGrid nums r =
        .error ("Expected 15 numbers, got " ++ toString nums.length)) ∧
    (nums.length = 15 →
      convertFlatToGrid nums r =
        (generateHousieTicket r).map TicketResult.grid) := by
  constructor
  · intro hne
    unfold convertFlatToGrid
    rw [if_pos hne]
  · intro he
    unfold convertFlatToGrid
    rw [if_neg (by omega)]
    cases generateHousieTicket r <;> simp [Except.map]

/-- Witness for C10: a 3-element list triggers the length error. -/
theorem convertFlatToGrid_length_gate_witness :
    convertFlatToGrid [1, 2, 3] wRng = .error "Expected 15 numbers, got 3" :=
  (convertFlatToGrid_length_gate [1, 2, 3] wRng).1 (by decide)

/-- C6 counterexample: reconstructing from `badFlat` (column 1 overflows with
9 numbers) returns the freshly generated `wTicket` grid, which does NOT
satisfy all six invariants: invariant 6 (ascending within columns) fails. -/
theorem convertFlatToGrid_overflow_counterexample :
    3 < (bucketCounts badFlat).getD 0 0 ∧
    convertFlatToGrid badFlat wRng = .ok wTicket.grid ∧
    ¬ ColsAscending wTicket.grid :=
  ⟨by decide, by decide, by decide⟩

/-! ## Facts about the column buckets (towards C7 and C8) -/

theorem range_bounds : ∀ c, c < 9 → 1 ≤ rangeMin c ∧ rangeMax c ≤ 90 := by
  decide

theorem rangeMin_closed :
    ∀ c, c < 9 → rangeMin c = if c = 0 then 1 else (10 * c : Int) := by
  decide

theorem rangeMax_closed :
    ∀ c, c < 9 → rangeMax c = if c = 8 then 90 else (10 * c + 9 : Int) := by
  decide

theorem bucketFind_some_elim {n : Int} {c : Nat} (h : bucketFind n = some c) :
    c < 9 ∧ rangeMin c ≤ n ∧ n ≤ rangeMax c := by
  have h1 := List.find?_some h
  have h2 := List.mem_of_find?_eq_some h
  simp only [Bool.and_eq_true, decide_eq_true_eq] at h1
  exact ⟨List.mem_range.mp h2, h1.1, h1.2⟩

theorem bucketFind_isSome_iff (n : Int) :
    (bucketFind n).isSome = true ↔ 1 ≤ n ∧ n ≤ 90 := by
  constructor
  · intro hs
    rcases Option.isSome_iff_exists.mp hs with ⟨c, hc⟩
    rcases bucketFind_some_elim hc with ⟨hc9, hlo, hhi⟩
    rcases range_bounds c hc9 with ⟨h1, h90⟩
    omega
  · rintro ⟨h1, h90⟩
    unfold bucketFind
    rw [List.find?_isSome]
    refine ⟨min 8 (n / 10).toNat, List.mem_range.mpr (by omega), ?_⟩
    simp only [Bool.and_eq_true, decide_eq_true_eq]
    rw [rangeMin_closed _ (by omega), rangeMax_closed _ (by omega)]
    constructor <;> split_ifs <;> omega

theorem sum_set_getD_succ :
    ∀ (l : List Nat) (c : Nat), c < l.length →
      (l.set c (l.getD c 0 + 1)).sum = l.sum + 1
  | [], _, h => absurd h (by simp)
  | x :: xs, 0, _ => by
    simp only [List.set, List.getD_cons_zero, List.sum_cons]
    omega
  | x :: xs, c + 1, h => by
    simp only [List.set, List.getD_cons_succ, List.sum_cons]
    rw [sum_set_getD_succ xs c (by simpa using h)]
    omega

theorem bucketStep_length (counts : List Nat) (n : Int) :
    (bucketStep counts n).length = counts.length := by
  unfold bucketStep
  cases bucketFind n <;> simp

theorem foldl_bucketStep_sum :
    ∀ (valid : List Int) (counts : List Nat), counts.length = 9 →
      (valid.foldl bucketStep counts).sum =
        counts.sum + valid.countP (fun n => (bucketFind n).isSome)
  | [], counts, _ => by simp
  | n :: rest, counts, h => by
    simp only [List.foldl_cons, List.countP_cons]
    rw [foldl_bucketStep_sum rest (bucketStep counts n)
      (by rw [bucketStep_length, h])]
    unfold bucketStep
    cases hb : bucketFind n with
    | none => simp [hb]
    | some c =>
      have hc : c < 9 := (bucketFind_some_elim hb).1
      rw [sum_set_getD_succ counts c (by omega)]
      simp [hb]
      omega

theorem bucketCounts_sum (valid : List Int) :
    (bucketCounts valid).sum = valid.countP (fun n => (bucketFind n).isSome) := by
  unfold bucketCounts
  rw [foldl_bucketStep_sum valid _ (by simp)]
  simp

/-! ### The same bucket facts over the validators' JS numbers -/

theorem bucketFindQ_some_elim {n : ℚ} {c : Nat} (h : bucketFindQ n = some c) :
    c < 9 ∧ (rangeMin c : ℚ) ≤ n ∧ n ≤ (rangeMax c : ℚ) := by
  have h1 := List.find?_some h
  have h2 := List.mem_of_find?_eq_some h
  simp only [Bool.and_eq_true, decide_eq_true_eq] at h1
  exact ⟨List.mem_range.mp h2, h1.1, h1.2⟩

/-- On an integer-valued JS number the validators' range scan agrees with the
analyzer's integer scan. -/
theorem bucketFindQ_intCast (n : Int) : bucketFindQ (n : ℚ) = bucketFind n := by
  unfold bucketFindQ bucketFind
  congr 1
  funext c
  rw [show decide ((rangeMin c : ℚ) ≤ (n : ℚ)) = decide (rangeMin c ≤ n) from
      decide_eq_decide.mpr Int.cast_le,
    show decide ((n : ℚ) ≤ (rangeMax c : ℚ)) = decide (n ≤ rangeMax c) from
      decide_eq_decide.mpr Int.cast_le]

theorem bucketStepQ_eq_none {counts : List Nat} {n : ℚ}
    (hb : bucketFindQ n = none) : bucketStepQ counts n = counts := by
  unfold bucketStepQ
  rw [hb]

theorem bucketStepQ_eq_some {counts : List Nat} {n : ℚ} {c : Nat}
    (hb : bucketFindQ n = some c) :
    bucketStepQ counts n = counts.set c (counts.getD c 0 + 1) := by
  unfold bucketStepQ
  rw [hb]

theorem bucketStepQ_length (counts : List Nat) (n : ℚ) :
    (bucketStepQ counts n).length = counts.length := by
  unfold bucketStepQ
  cases bucketFindQ n <;> simp

theorem foldl_bucketStepQ_sum :
    ∀ (valid : List ℚ) (counts : List Nat), counts.length = 9 →
      (valid.foldl bucketStepQ counts).sum =
        counts.sum + valid.countP (fun n => (bucketFindQ n).isSome)
  | [], counts, _ => by simp
  | n :: rest, counts, h => by
    simp only [List.foldl_cons, List.countP_cons]
    rw [foldl_bucketStepQ_sum rest (bucketStepQ counts n)
      (by rw [bucketStepQ_length, h])]
    unfold bucketStepQ
    cases hb : bucketFindQ n with
    | none => simp [hb]
    | some c =>
      have hc : c < 9 := (bucketFindQ_some_elim hb).1
      rw [sum_set_getD_succ counts c (by omega)]
      simp [hb]
      omega

theorem bucketCountsQ_sum (valid : List ℚ) :
    (bucketCountsQ valid).sum =
      valid.countP (fun n => (bucketFindQ n).isSome) := by
  unfold bucketCountsQ
  rw [foldl_bucketStepQ_sum valid _ (by simp)]
  simp

/-- The validators' range gate never fires between 1 and 90, so a valid
entry like `19.5` passes it while hitting no column bucket. -/
theorem bucketFindQ_gap : bucketFindQ ((39 : ℚ) / 2) = none := by
  unfold bucketFindQ
  rw [List.find?_eq_none]
  intro c hc
  fin_cases hc <;> norm_num [rangeMin, rangeMax, columnRanges]

/-- C8 counterexample: the candidate `[19.5]` has one valid entry — numeric,
positive and within 1-90 (it even survives the validator's own range check) —
yet the returned `columnCounts` sum to 0, not 1: `19.5` lies in the gap
between the ranges 10-19 and 20-29 and lands in no bucket. -/
theorem validateTicketFormat_gap_counterexample :
    validNumbersOf [JSVal.num ((39 : ℚ) / 2)] = [(39 : ℚ) / 2] ∧
    (1 : ℚ) ≤ (39 : ℚ) / 2 ∧ (39 : ℚ) / 2 ≤ 90 ∧
    rangeIssues [(39 : ℚ) / 2] = [] ∧
    (validateTicketFormat [JSVal.num ((39 : ℚ) / 2)]).columnCounts.sum = 0 ∧
    (validateTicketFormat [JSVal.num ((39 : ℚ) / 2)]).columnCounts.sum ≠
      (validNumbersOf [JSVal.num ((39 : ℚ) / 2)]).length := by
  have hvalid : validNumbersOf [JSVal.num ((39 : ℚ) / 2)] = [(39 : ℚ) / 2] := by
    unfold validNumbersOf
    rw [List.filterMap_cons]
    norm_num
  have hsum : (validateTicketFormat [JSVal.num ((39 : ℚ) / 2)]).columnCounts.sum
      = 0 := by
    show (bucketCountsQ (validNumbersOf [JSVal.num ((39 : ℚ) / 2)])).sum = 0
    rw [hvalid, bucketCountsQ_sum, List.countP_cons, List.countP_nil,
      bucketFindQ_gap]
    rfl
  refine ⟨hvalid, by norm_num, by norm_num, ?_, hsum, ?_⟩
  · unfold rangeIssues
    rw [List.filterMap_cons]
    norm_num
  · rw [hsum, hvalid]
    simp

/-- C8 (amended): the sum of the returned `columnCounts` equals the number of
valid (numeric, positive) entries of the candidate that fall within some
column's declared range; a valid in-range entry in a gap between ranges
(a non-integer such as 19.5) contributes to no bucket, so the sum can fall
short of the count of valid entries within 1-90. -/
theorem validateTicketFormat_columnCounts_sum (xs : List JSVal) :
    (validateTicketFormat xs).columnCounts.sum =
      xs.countP (fun v => match v with
        | JSVal.num n => decide (0 < n) && (bucketFindQ n).isSome
        | _ => false) := by
  show (bucketCountsQ (validNumbersOf xs)).sum = _
  rw [bucketCountsQ_sum]
  unfold validNumbersOf
  rw [List.countP_filterMap]
  apply List.countP_congr
  intro v _
  cases v with
  | num n =>
    by_cases h0 : 0 < n
    · simp [h0]
    · simp [h0]
  | str s => simp
  | arr ys => simp
  | bool b => simp
  | null => simp

/-- Witness-free companion fact used below: the coercion branch taken by
`validateExistingTicket` for a plain numeric array is the flat one. -/
theorem validateExistingTicket_arr_num (parse : String → Option JSVal)
    (nums : List ℚ) :
    validateExistingTicket parse (.arr (nums.map JSVal.num)) =
      checkTicketNumbers (nums.map JSVal.num) := by
  cases nums <;> rfl

/-- C7: whenever a column's bucket count exceeds 3, the validator reports
invalid and its issue list contains the message naming the 1-indexed column
and its count, together with the regeneration-needed summary issue. -/
theorem validator_column_overflow_issue (parse : String → Option JSVal)
    (nums : List ℚ) (c : Nat) (hc : c < 9)
    (hcount : 3 < (bucketCountsQ (validNumbersOf (nums.map JSVal.num))).getD c 0) :
    (validateExistingTicket parse (.arr (nums.map JSVal.num))).isValid = false ∧
    ("Column " ++ toString (c + 1) ++ " has " ++
        toString ((bucketCountsQ (validNumbersOf (nums.map JSVal.num))).getD c 0) ++
        " numbers (max 3 allowed)") ∈
      (validateExistingTicket parse (.arr (nums.map JSVal.num))).issues ∧
    "Ticket needs regeneration for proper Housie format" ∈
      (validateExistingTicket parse (.arr (nums.map JSVal.num))).issues := by
  rw [validateExistingTicket_arr_num]
  have hmsg : ("Column " ++ toString (c + 1) ++ " has " ++
      toString ((bucketCountsQ (validNumbersOf (nums.map JSVal.num))).getD c 0) ++
      " numbers (max 3 allowed)") ∈
      columnIssues (bucketCountsQ (validNumbersOf (nums.map JSVal.num))) := by
    unfold columnIssues
    rw [List.mem_filterMap]
    exact ⟨c, List.mem_range.mpr hc, by rw [if_pos hcount]⟩
  have hne : (columnIssues (bucketCountsQ (validNumbersOf (nums.map JSVal.num)))).isEmpty = false := by
    rcases hi : (columnIssues (bucketCountsQ (validNumbersOf (nums.map JSVal.num)))).isEmpty with _ | _
    · rfl
    · rw [List.isEmpty_iff] at hi
      rw [hi] at hmsg
      exact absurd hmsg (List.not_mem_nil _)
  have hmem2 : ("Column " ++ toString (c + 1) ++ " has " ++
      toString ((bucketCountsQ (validNumbersOf (nums.map JSVal.num))).getD c 0) ++
      " numbers (max 3 allowed)") ∈
      ticketIssues (nums.map JSVal.num)
        "Ticket needs regeneration for proper Housie format" := by
    unfold ticketIssues
    simp only [List.mem_append]
    tauto
  have hmem3 : "Ticket needs regeneration for proper Housie format" ∈
      ticketIssues (nums.map JSVal.num)
        "Ticket needs regeneration for proper Housie format" := by
    unfold ticketIssues
    rw [hne]
    simp only [Bool.false_eq_true, if_false, List.mem_append]
    right
    simp
  refine ⟨?_, hmem2, hmem3⟩
  show (ticketIssues (nums.map JSVal.num)
      "Ticket needs regeneration for proper Housie format").isEmpty = false
  rcases hi : (ticketIssues (nums.map JSVal.num)
      "Ticket needs regeneration for proper Housie format").isEmpty with _ | _
  · rfl
  · rw [List.isEmpty_iff] at hi
    rw [hi] at hmem2
    exact absurd hmem2 (List.not_mem_nil _)

/-- Witness for C7: column 1 (range 1-9) holding 1, 2, 3 and 4 plus eleven
more valid distinct numbers elsewhere. -/
theorem validator_column_overflow_issue_witness :
    (validateExistingTicket (fun _ => none)
      (.arr (([1, 2, 3, 4, 10, 20, 30, 40, 50, 60, 70, 80, 90, 11, 21] :
        List ℚ).map JSVal.num))).isValid = false ∧
    "Column 1 has 4 numbers (max 3 allowed)" ∈
      (validateExistingTicket (fun _ => none)
        (.arr (([1, 2, 3, 4, 10, 20, 30, 40, 50, 60, 70, 80, 90, 11, 21] :
          List ℚ).map JSVal.num))).issues ∧
    "Ticket needs regeneration for proper Housie format" ∈
      (validateExistingTicket (fun _ => none)
        (.arr (([1, 2, 3, 4, 10, 20, 30, 40, 50, 60, 70, 80, 90, 11, 21] :
          List ℚ).map JSVal.num))).issues :=
  validator_column_overflow_issue (fun _ => none)
    [1, 2, 3, 4, 10, 20, 30, 40, 50, 60, 70, 80, 90, 11, 21] 0
    (by decide) (by decide)

/-! ## Generic list and grid helper lemmas -/

theorem getD_set_self {α : Type} (l : List α) (i : Nat) (v d : α)
    (h : i < l.length) : (l.set i v).getD i d = v := by
  simp [List.getD, List.getElem?_set_self h]

theorem getD_set_ne {α : Type} (l : List α) (i j : Nat) (v d : α)
    (h : i ≠ j) : (l.set i v).getD j d = l.getD j d := by
  simp [List.getD, List.getElem?_set_ne h]

theorem getD_replicate_zero : ∀ (n c : Nat), (List.replicate n (0 : Int)).getD c 0 = 0
  | 0, _ => rfl
  | _ + 1, 0 => rfl
  | n + 1, c + 1 => getD_replicate_zero n c

/-- The grids this code builds are 3 rows of 9 cells. -/
def GridShape (g : Grid) : Prop := g.length = 3 ∧ ∀ row ∈ g, row.length = 9

theorem gridShape_empty : GridShape emptyGrid := by
  constructor
  · rfl
  · intro row hrow
    rcases List.eq_of_mem_replicate hrow with rfl
    simp

theorem cell_emptyGrid : ∀ r c, cell emptyGrid r c = 0 := by
  intro r c
  match r with
  | 0 => exact getD_replicate_zero 9 c
  | 1 => exact getD_replicate_zero 9 c
  | 2 => exact getD_replicate_zero 9 c
  | r + 3 => rfl

theorem row_length {g : Grid} (hs : GridShape g) {r : Nat} (hr : r < 3) :
    (g.getD r []).length = 9 := by
  have hrl : r < g.length := by rw [hs.1]; omega
  have hmem : g.getD r [] ∈ g := by
    rw [List.getD_eq_getElem _ _ hrl]
    exact List.getElem_mem hrl
  exact hs.2 _ hmem

theorem cell_setCell_eq {g : Grid} {r c : Nat} (v : Int) (hs : GridShape g)
    (hr : r < 3) (hc : c < 9) : cell (setCell g r c v) r c = v := by
  unfold cell setCell
  rw [getD_set_self _ _ _ _ (by rw [hs.1]; omega)]
  rw [getD_set_self _ _ _ _ (by rw [row_length hs hr]; omega)]

theorem cell_setCell_ne {g : Grid} {r c r' c' : Nat} (v : Int)
    (h : r ≠ r' ∨ c ≠ c') : cell (setCell g r c v) r' c' = cell g r' c' := by
  unfold cell setCell
  rcases h with hne | hne
  · rw [getD_set_ne _ _ _ _ _ hne]
  · rcases eq_or_ne r r' with rfl | hr
    · by_cases hrl : r < g.length
      · rw [getD_set_self _ _ _ _ hrl, getD_set_ne _ _ _ _ _ hne]
      · rw [List.set_eq_of_length_le (by omega)]
    · rw [getD_set_ne _ _ _ _ _ hr]

theorem setCell_shape {g : Grid} {r c : Nat} {v : Int} (hs : GridShape g)
    (hr : r < 3) : GridShape (setCell g r c v) := by
  constructor
  · simp [setCell, hs.1]
  · intro row hrow
    rcases List.mem_or_eq_of_mem_set hrow with h | rfl
    · exact hs.2 _ h
    · rw [List.length_set]
      exact row_length hs hr

theorem insertSorted_perm (x : Int) :
    ∀ l : List Int, List.Perm (insertSorted x l) (x :: l)
  | [] => List.Perm.refl _
  | y :: ys => by
    unfold insertSorted
    split
    · exact List.Perm.refl _
    · exact ((insertSorted_perm x ys).cons y).trans (List.Perm.swap x y ys)

theorem sortInts_perm : ∀ l : List Int, List.Perm (sortInts l) l
  | [] => List.Perm.refl _
  | x :: xs => (insertSorted_perm x (sortInts xs)).trans ((sortInts_perm xs).cons x)

theorem map_getD_range : ∀ row : List Int,
    (List.range row.length).map (fun c => row.getD c 0) = row
  | [] => rfl
  | x :: xs => by
    rw [List.length_cons, List.range_succ_eq_map]
    simp only [List.map_cons, List.getD_cons_zero, List.map_map]
    congr 1
    have he : ((fun c => (x :: xs).getD c 0) ∘ Nat.succ) =
        fun c => xs.getD c 0 := by
      funext c
      simp [List.getD_cons_succ]
    rw [he, map_getD_range xs]

/-- For a well-shaped grid the index-based extraction used to build
`flatNumbers` coincides with the `grid.flat().filter(...)` of the checks. -/
theorem extractFlat_eq_allNumbers {g : Grid} (hs : GridShape g) :
    extractFlat g = allNumbersOf g := by
  rcases List.length_eq_three.mp hs.1 with ⟨r0, r1, r2, rfl⟩
  have h0 : r0.length = 9 := hs.2 _ (by simp)
  have h1 : r1.length = 9 := hs.2 _ (by simp)
  have h2 : r2.length = 9 := hs.2 _ (by simp)
  unfold extractFlat allNumbersOf
  have e0 : (List.range 9).map (fun c => cell [r0, r1, r2] 0 c) = r0 := by
    conv_lhs => rw [show (9 : Nat) = r0.length from h0.symm]
    exact map_getD_range r0
  have e1 : (List.range 9).map (fun c => cell [r0, r1, r2] 1 c) = r1 := by
    conv_lhs => rw [show (9 : Nat) = r1.length from h1.symm]
    exact map_getD_range r1
  have e2 : (List.range 9).map (fun c => cell [r0, r1, r2] 2 c) = r2 := by
    conv_lhs => rw [show (9 : Nat) = r2.length from h2.symm]
    exact map_getD_range r2
  rw [show List.range 3 = [0, 1, 2] from rfl]
  simp only [List.flatMap_cons, List.flatMap_nil, List.append_nil]
  rw [e0, e1, e2]
  simp [List.filter_append]

/-! ## The greedy placement, abstracted to one column (towards C3)

While one column's numbers are being placed, the placement only reads the
row counts and the three occupancy flags of that column; `groupStep` is that
projection of `placeOne`, and `groupRun` iterates it. -/

def groupStep (st : List Nat × List Bool) : Option (List Nat × List Bool) :=
  match findBestRow st.1 st.2 with
  | none => none
  | some r => some (st.1.set r (st.1.getD r 0 + 1), st.2.set r false)

def groupRun : Nat → List Nat × List Bool → Option (List Nat × List Bool)
  | 0, st => some st
  | k + 1, st =>
    match groupStep st with
    | none => none
    | some st' => groupRun k st'

def max3 (l : List Nat) : Nat := max (l.getD 0 0) (max (l.getD 1 0) (l.getD 2 0))

def min3 (l : List Nat) : Nat := min (l.getD 0 0) (min (l.getD 1 0) (l.getD 2 0))

/-- The balancedness certificate of one column group, checked executably:
starting from row counts `[a, b, c]` and three free flags, `k` placements
all succeed, add `k` to the total, stay at most 5 and stay within spread 1. -/
def groupRunOk (k a b c : Nat) : Bool :=
  match groupRun k ([a, b, c], [true, true, true]) with
  | none => false
  | some st =>
    decide (st.1.sum = a + b + c + k) && decide (st.1.length = 3) &&
    decide (st.1.getD 0 0 ≤ 5) && decide (st.1.getD 1 0 ≤ 5) &&
    decide (st.1.getD 2 0 ≤ 5) &&
    decide (max3 st.1 ≤ min3 st.1 + 1)

/-- Exhaustive check of `groupRunOk` over all reachable configurations:
group sizes up to 3 and row counts up to 5 within spread 1 and total 15. -/
def groupLemmaB : Bool :=
  (List.range 4).all fun k =>
    (List.range 6).all fun a =>
      (List.range 6).all fun b =>
        (List.range 6).all fun c =>
          !(decide (max3 [a, b, c] ≤ min3 [a, b, c] + 1) &&
              decide (a + b + c + k ≤ 15)) ||
            groupRunOk k a b c

theorem groupLemmaB_true : groupLemmaB = true := by decide

theorem groupRun_balanced_dec : ∀ k < 4, ∀ a < 6, ∀ b < 6, ∀ c < 6,
    max3 [a, b, c] ≤ min3 [a, b, c] + 1 → a + b + c + k ≤ 15 →
    groupRunOk k a b c = true := by
  intro k hk a ha b hb c hc h1 h2
  have hall := groupLemmaB_true
  unfold groupLemmaB at hall
  rw [List.all_eq_true] at hall
  have ha1 := hall k (List.mem_range.mpr hk)
  rw [List.all_eq_true] at ha1
  have ha2 := ha1 a (List.mem_range.mpr ha)
  rw [List.all_eq_true] at ha2
  have ha3 := ha2 b (List.mem_range.mpr hb)
  rw [List.all_eq_true] at ha3
  have ha4 := ha3 c (List.mem_range.mpr hc)
  simpa [h1, h2] using ha4

theorem findBestRowGo_mem (counts : List Nat) (free : List Bool) :
    ∀ (rows : List Nat) (best : Option Nat) (r : Nat),
      findBestRowGo counts free rows best = some r → r ∈ rows ∨ best = some r := by
  intro rows
  induction rows with
  | nil =>
    intro best r h
    exact Or.inr h
  | cons row rest ih =>
    intro best r h
    unfold findBestRowGo at h
    by_cases hcond : (decide (counts.getD row 0 < 5) && free.getD row false) = true
    · rw [if_pos hcond] at h
      cases best with
      | none =>
        have h' : findBestRowGo counts free rest (some row) = some r := h
        rcases ih _ _ h' with hm | hb
        · exact Or.inl (List.mem_cons_of_mem _ hm)
        · injection hb with hb'
          subst hb'
          exact Or.inl (List.mem_cons_self _ _)
      | some b =>
        have h' : (if counts.getD row 0 < counts.getD b 0 then
            findBestRowGo counts free rest (some row)
          else findBestRowGo counts free rest (some b)) = some r := h
        by_cases h2 : counts.getD row 0 < counts.getD b 0
        · rw [if_pos h2] at h'
          rcases ih _ _ h' with hm | hb
          · exact Or.inl (List.mem_cons_of_mem _ hm)
          · injection hb with hb'
            subst hb'
            exact Or.inl (List.mem_cons_self _ _)
        · rw [if_neg h2] at h'
          rcases ih _ _ h' with hm | hb
          · exact Or.inl (List.mem_cons_of_mem _ hm)
          · injection hb with hb'
            subst hb'
            exact Or.inr rfl
    · rw [if_neg hcond] at h
      rcases ih _ _ h with hm | hb
      · exact Or.inl (List.mem_cons_of_mem _ hm)
      · exact Or.inr hb

theorem findBestRowGo_elig (counts : List Nat) (free : List Bool) :
    ∀ (rows : List Nat) (best : Option Nat) (r : Nat),
      (∀ b, best = some b → counts.getD b 0 < 5 ∧ free.getD b false = true) →
      findBestRowGo counts free rows best = some r →
      counts.getD r 0 < 5 ∧ free.getD r false = true := by
  intro rows
  induction rows with
  | nil =>
    intro best r hb h
    exact hb r h
  | cons row rest ih =>
    intro best r hb h
    unfold findBestRowGo at h
    by_cases hcond : (decide (counts.getD row 0 < 5) && free.getD row false) = true
    · have hcond' : counts.getD row 0 < 5 ∧ free.getD row false = true := by
        simpa using hcond
      rw [if_pos hcond] at h
      cases best with
      | none =>
        have h' : findBestRowGo counts free rest (some row) = some r := h
        refine ih _ _ ?_ h'
        intro b hbb
        injection hbb with hbb'
        subst hbb'
        exact hcond'
      | some b0 =>
        have h' : (if counts.getD row 0 < counts.getD b0 0 then
            findBestRowGo counts free rest (some row)
          else findBestRowGo counts free rest (some b0)) = some r := h
        by_cases h2 : counts.getD row 0 < counts.getD b0 0
        · rw [if_pos h2] at h'
          refine ih _ _ ?_ h'
          intro b hbb
          injection hbb with hbb'
          subst hbb'
          exact hcond'
        · rw [if_neg h2] at h'
          refine ih _ _ ?_ h'
          intro b hbb
          injection hbb with hbb'
          subst hbb'
          exact hb b0 rfl
    · rw [if_neg hcond] at h
      exact ih _ _ hb h

theorem findBestRow_spec {counts : List Nat} {free : List Bool} {r : Nat}
    (h : findBestRow counts free = some r) :
    r < 3 ∧ counts.getD r 0 < 5 ∧ free.getD r false = true := by
  have hm := findBestRowGo_mem counts free [0, 1, 2] none r h
  have he := findBestRowGo_elig counts free [0, 1, 2] none r
    (by intro b hb; cases hb) h
  rcases hm with hm | hm
  · have h012 : r = 0 ∨ r = 1 ∨ r = 2 := by simpa using hm
    exact ⟨by omega, he⟩
  · exact absurd hm (by simp)

/-- Placing a whole column group follows the abstract `groupRun` machine:
equal row counts, the column's occupancy flags track the abstract flags, and
no other column's cells change. -/
theorem place_group_bridge :
    ∀ (group : List (Int × Nat)) (c : Nat) (st : PlaceState)
      (res : List Nat × List Bool),
      (∀ p ∈ group, p.2 = c ∧ 0 < p.1) → c < 9 →
      GridShape st.grid →
      groupRun group.length (st.rowCounts, freeAt st.grid c) = some res →
      (placeAll group st).rowCounts = res.1 ∧
      GridShape (placeAll group st).grid ∧
      freeAt (placeAll group st).grid c = res.2 ∧
      (∀ c' r', c' ≠ c → cell (placeAll group st).grid r' c' = cell st.grid r' c') := by
  intro group
  induction group with
  | nil =>
    intro c st res hmem hc hs hrun
    simp only [List.length_nil, groupRun] at hrun
    cases hrun
    exact ⟨rfl, hs, rfl, fun _ _ _ => rfl⟩
  | cons p gs ih =>
    intro c st res hmem hc hs hrun
    simp only [List.length_cons] at hrun
    rw [groupRun] at hrun
    cases hstep : groupStep (st.rowCounts, freeAt st.grid c) with
    | none =>
      rw [hstep] at hrun
      exact absurd hrun (by simp)
    | some ab1 =>
      rw [hstep] at hrun
      unfold groupStep at hstep
      cases hfind : findBestRow st.rowCounts (freeAt st.grid c) with
      | none =>
        rw [hfind] at hstep
        exact absurd hstep (by simp)
      | some r =>
        rw [hfind] at hstep
        simp only [Option.some.injEq] at hstep
        rcases findBestRow_spec hfind with ⟨hr3, hlt5, hfreeR⟩
        have hp := hmem p (List.mem_cons_self _ _)
        have hv : p.1 ≠ 0 := by omega
        have hone : placeOne st p = PlaceState.mk (setCell st.grid r c p.1)
            (st.rowCounts.set r (st.rowCounts.getD r 0 + 1)) := by
          unfold placeOne
          rw [hp.1, hfind]
        have hfree' : freeAt (setCell st.grid r c p.1) c =
            (freeAt st.grid c).set r false := by
          have e0 : (0 : Nat) < 3 := by omega
          interval_cases r
          · rw [show freeAt (setCell st.grid 0 c p.1) c =
              [cell (setCell st.grid 0 c p.1) 0 c == 0,
               cell (setCell st.grid 0 c p.1) 1 c == 0,
               cell (setCell st.grid 0 c p.1) 2 c == 0] from rfl]
            rw [cell_setCell_eq p.1 hs (by omega) hc,
              cell_setCell_ne p.1 (Or.inl (by omega)),
              cell_setCell_ne p.1 (Or.inl (by omega))]
            simp [freeAt, hv]
          · rw [show freeAt (setCell st.grid 1 c p.1) c =
              [cell (setCell st.grid 1 c p.1) 0 c == 0,
               cell (setCell st.grid 1 c p.1) 1 c == 0,
               cell (setCell st.grid 1 c p.1) 2 c == 0] from rfl]
            rw [cell_setCell_eq p.1 hs (by omega) hc,
              cell_setCell_ne p.1 (Or.inl (by omega)),
              cell_setCell_ne p.1 (Or.inl (by omega))]
            simp [freeAt, hv]
          · rw [show freeAt (setCell st.grid 2 c p.1) c =
              [cell (setCell st.grid 2 c p.1) 0 c == 0,
               cell (setCell st.grid 2 c p.1) 1 c == 0,
               cell (setCell st.grid 2 c p.1) 2 c == 0] from rfl]
            rw [cell_setCell_eq p.1 hs (by omega) hc,
              cell_setCell_ne p.1 (Or.inl (by omega)),
              cell_setCell_ne p.1 (Or.inl (by omega))]
            simp [freeAt, hv]
        have hs' : GridShape (setCell st.grid r c p.1) := setCell_shape hs hr3
        have hrun' : groupRun gs.length
            ((st.rowCounts.set r (st.rowCounts.getD r 0 + 1)),
              freeAt (setCell st.grid r c p.1) c) = some res := by
          rw [hfree', hstep]
          exact hrun
        have hres := ih c (PlaceState.mk (setCell st.grid r c p.1)
            (st.rowCounts.set r (st.rowCounts.getD r 0 + 1))) res
          (fun q hq => hmem q (List.mem_cons_of_mem _ hq)) hc hs' hrun'
        have hplace : placeAll (p :: gs) st = placeAll gs (placeOne st p) := rfl
        rw [hplace, hone]
        refine ⟨hres.1, hres.2.1, hres.2.2.1, ?_⟩
        intro c' r' hne
        rw [hres.2.2.2 c' r' hne]
        exact cell_setCell_ne p.1 (Or.inr fun he => hne he.symm)

/-! ## Tracking the extracted numbers through a placement -/

theorem filter_map_update {f f' : Nat → Int} {v : Int} {c : Nat} :
    ∀ idxs : List Nat, c ∈ idxs → idxs.Nodup → v ≠ 0 → f c = 0 → f' c = v →
      (∀ i, i ≠ c → f' i = f i) →
      List.Perm ((idxs.map f').filter (fun x => x != 0))
        (v :: (idxs.map f).filter (fun x => x != 0)) := by
  intro idxs
  induction idxs with
  | nil =>
    intro h
    exact absurd h (List.not_mem_nil _)
  | cons i rest ih =>
    intro hc hnd hv hfc hf'c hother
    rcases List.mem_cons.mp hc with rfl | hcr
    · have hrest : ∀ j ∈ rest, f' j = f j := by
        intro j hj
        refine hother j ?_
        intro he
        rw [he] at hj
        exact (List.nodup_cons.mp hnd).1 hj
      have hmapeq : rest.map f' = rest.map f := List.map_congr_left hrest
      simp only [List.map_cons, hf'c, hfc]
      rw [hmapeq,
        List.filter_cons_of_pos (by simpa using hv),
        List.filter_cons_of_neg (by simp)]
    · have hic : i ≠ c := by
        intro he
        rw [he] at hnd
        exact (List.nodup_cons.mp hnd).1 hcr
      have hfi : f' i = f i := hother i hic
      have hperm := ih hcr (List.nodup_cons.mp hnd).2 hv hfc hf'c hother
      simp only [List.map_cons, hfi]
      by_cases hft : (f i != 0) = true
      · rw [@List.filter_cons_of_pos _ (fun x => x != 0) (f i) (rest.map f') hft,
          @List.filter_cons_of_pos _ (fun x => x != 0) (f i) (rest.map f) hft]
        exact (hperm.cons (f i)).trans (List.Perm.swap v (f i) _)
      · rw [@List.filter_cons_of_neg _ (fun x => x != 0) (f i) (rest.map f') hft,
          @List.filter_cons_of_neg _ (fun x => x != 0) (f i) (rest.map f) hft]
        exact hperm

/-- Writing a nonzero value into an empty in-range cell adds exactly that
value to the extracted number list, up to permutation. -/
theorem extractFlat_setCell {g : Grid} {r c : Nat} {v : Int}
    (hs : GridShape g) (hr : r < 3) (hc : c < 9) (hv : v ≠ 0)
    (hcell : cell g r c = 0) :
    List.Perm (extractFlat (setCell g r c v)) (v :: extractFlat g) := by
  unfold extractFlat
  rw [show List.range 3 = [0, 1, 2] from rfl]
  simp only [List.flatMap_cons, List.flatMap_nil, List.append_nil]
  have hcmem : c ∈ List.range 9 := List.mem_range.mpr hc
  have hcnd : (List.range 9).Nodup := List.nodup_range 9
  interval_cases r
  · have h1 : (List.range 9).map (fun c' => cell (setCell g 0 c v) 1 c') =
        (List.range 9).map (fun c' => cell g 1 c') :=
      List.map_congr_left (fun i _ => cell_setCell_ne v (Or.inl (by omega)))
    have h2 : (List.range 9).map (fun c' => cell (setCell g 0 c v) 2 c') =
        (List.range 9).map (fun c' => cell g 2 c') :=
      List.map_congr_left (fun i _ => cell_setCell_ne v (Or.inl (by omega)))
    have h0 := @filter_map_update (fun c' => cell g 0 c')
      (fun c' => cell (setCell g 0 c v) 0 c') v c (List.range 9) hcmem hcnd hv
      hcell (cell_setCell_eq v hs (by omega) hc)
      (fun i hi => cell_setCell_ne v (Or.inr (Ne.symm hi)))
    rw [h1, h2]
    exact h0.append_right _
  · have h1 : (List.range 9).map (fun c' => cell (setCell g 1 c v) 0 c') =
        (List.range 9).map (fun c' => cell g 0 c') :=
      List.map_congr_left (fun i _ => cell_setCell_ne v (Or.inl (by omega)))
    have h2 : (List.range 9).map (fun c' => cell (setCell g 1 c v) 2 c') =
        (List.range 9).map (fun c' => cell g 2 c') :=
      List.map_congr_left (fun i _ => cell_setCell_ne v (Or.inl (by omega)))
    have h0 := @filter_map_update (fun c' => cell g 1 c')
      (fun c' => cell (setCell g 1 c v) 1 c') v c (List.range 9) hcmem hcnd hv
      hcell (cell_setCell_eq v hs (by omega) hc)
      (fun i hi => cell_setCell_ne v (Or.inr (Ne.symm hi)))
    rw [h1, h2]
    exact (List.Perm.append_left _ (h0.append_right _)).trans List.perm_middle
  · have h1 : (List.range 9).map (fun c' => cell (setCell g 2 c v) 0 c') =
        (List.range 9).map (fun c' => cell g 0 c') :=
      List.map_congr_left (fun i _ => cell_setCell_ne v (Or.inl (by omega)))
    have h2 : (List.range 9).map (fun c' => cell (setCell g 2 c v) 1 c') =
        (List.range 9).map (fun c' => cell g 1 c') :=
      List.map_congr_left (fun i _ => cell_setCell_ne v (Or.inl (by omega)))
    have h0 := @filter_map_update (fun c' => cell g 2 c')
      (fun c' => cell (setCell g 2 c v) 2 c') v c (List.range 9) hcmem hcnd hv
      hcell (cell_setCell_eq v hs (by omega) hc)
      (fun i hi => cell_setCell_ne v (Or.inr (Ne.symm hi)))
    rw [h1, h2]
    exact (List.Perm.append_left _
      ((List.Perm.append_left _ h0).trans List.perm_middle)).trans
      List.perm_middle

theorem freeAt_getD {g : Grid} {c r : Nat} (hr : r < 3) :
    (freeAt g c).getD r false = (cell g r c == 0) := by
  interval_cases r <;> rfl

/-- Writing a nonzero value clears exactly one of the column's free flags. -/
theorem freeAt_setCell {g : Grid} {r c : Nat} {v : Int} (hs : GridShape g)
    (hr : r < 3) (hc : c < 9) (hv : v ≠ 0) :
    freeAt (setCell g r c v) c = (freeAt g c).set r false := by
  interval_cases r
  · rw [show freeAt (setCell g 0 c v) c =
      [cell (setCell g 0 c v) 0 c == 0,
       cell (setCell g 0 c v) 1 c == 0,
       cell (setCell g 0 c v) 2 c == 0] from rfl]
    rw [cell_setCell_eq v hs (by omega) hc,
      cell_setCell_ne v (Or.inl (by omega)),
      cell_setCell_ne v (Or.inl (by omega))]
    simp [freeAt, hv]
  · rw [show freeAt (setCell g 1 c v) c =
      [cell (setCell g 1 c v) 0 c == 0,
       cell (setCell g 1 c v) 1 c == 0,
       cell (setCell g 1 c v) 2 c == 0] from rfl]
    rw [cell_setCell_eq v hs (by omega) hc,
      cell_setCell_ne v (Or.inl (by omega)),
      cell_setCell_ne v (Or.inl (by omega))]
    simp [freeAt, hv]
  · rw [show freeAt (setCell g 2 c v) c =
      [cell (setCell g 2 c v) 0 c == 0,
       cell (setCell g 2 c v) 1 c == 0,
       cell (setCell g 2 c v) 2 c == 0] from rfl]
    rw [cell_setCell_eq v hs (by omega) hc,
      cell_setCell_ne v (Or.inl (by omega)),
      cell_setCell_ne v (Or.inl (by omega))]
    simp [freeAt, hv]

/-- Placing a whole column group writes exactly the group's numbers into the
grid: the extraction of the resulting grid is, up to permutation, the group's
numbers on top of the previous extraction. -/
theorem place_group_extract :
    ∀ (group : List (Int × Nat)) (c : Nat) (st : PlaceState)
      (res : List Nat × List Bool),
      (∀ p ∈ group, p.2 = c ∧ 0 < p.1) → c < 9 →
      GridShape st.grid →
      groupRun group.length (st.rowCounts, freeAt st.grid c) = some res →
      List.Perm (extractFlat (placeAll group st).grid)
        (group.map Prod.fst ++ extractFlat st.grid) := by
  intro group
  induction group with
  | nil =>
    intro c st res _ _ _ _
    exact List.Perm.refl _
  | cons p gs ih =>
    intro c st res hmem hc hs hrun
    simp only [List.length_cons] at hrun
    rw [groupRun] at hrun
    cases hstep : groupStep (st.rowCounts, freeAt st.grid c) with
    | none =>
      rw [hstep] at hrun
      exact absurd hrun (by simp)
    | some ab1 =>
      rw [hstep] at hrun
      unfold groupStep at hstep
      cases hfind : findBestRow st.rowCounts (freeAt st.grid c) with
      | none =>
        rw [hfind] at hstep
        exact absurd hstep (by simp)
      | some r =>
        rw [hfind] at hstep
        simp only [Option.some.injEq] at hstep
        rcases findBestRow_spec hfind with ⟨hr3, hlt5, hfreeR⟩
        have hp := hmem p (List.mem_cons_self _ _)
        have hv : p.1 ≠ 0 := by omega
        have hcell0 : cell st.grid r c = 0 := by
          rw [freeAt_getD hr3] at hfreeR
          simpa using hfreeR
        have hone : placeOne st p = PlaceState.mk (setCell st.grid r c p.1)
            (st.rowCounts.set r (st.rowCounts.getD r 0 + 1)) := by
          unfold placeOne
          rw [hp.1, hfind]
        have hs' : GridShape (setCell st.grid r c p.1) := setCell_shape hs hr3
        have hrun' : groupRun gs.length
            ((st.rowCounts.set r (st.rowCounts.getD r 0 + 1)),
              freeAt (setCell st.grid r c p.1) c) = some res := by
          rw [freeAt_setCell hs hr3 hc hv, hstep]
          exact hrun
        have hih := ih c (PlaceState.mk (setCell st.grid r c p.1)
            (st.rowCounts.set r (st.rowCounts.getD r 0 + 1))) res
          (fun q hq => hmem q (List.mem_cons_of_mem _ hq)) hc hs' hrun'
        have hplace : placeAll (p :: gs) st = placeAll gs (placeOne st p) := rfl
        rw [hplace, hone]
        refine hih.trans ?_
        refine (List.Perm.append_left _
          (extractFlat_setCell hs hr3 hc hv hcell0)).trans ?_
        exact List.perm_middle

theorem counts_eq_555 {l : List Nat} (hlen : l.length = 3) (hsum : l.sum = 15)
    (h0 : l.getD 0 0 ≤ 5) (h1 : l.getD 1 0 ≤ 5) (h2 : l.getD 2 0 ≤ 5) :
    l = [5, 5, 5] := by
  rcases List.length_eq_three.mp hlen with ⟨a, b, c, rfl⟩
  simp only [List.getD_cons_zero, List.getD_cons_succ] at h0 h1 h2
  simp only [List.sum_cons, List.sum_nil] at hsum
  have he : a = 5 ∧ b = 5 ∧ c = 5 := by omega
  rw [he.1, he.2.1, he.2.2]

/-- In a column-sorted list, everything surviving `dropWhile (col = c)`
sits in a strictly later column. -/
theorem dropWhile_col_gt {c : Nat} :
    ∀ l : List (Int × Nat), List.Pairwise (fun p q => p.2 ≤ q.2) l →
      (∀ q ∈ l, c ≤ q.2) →
      ∀ q ∈ l.dropWhile (fun q => q.2 == c), c < q.2 := by
  intro l
  induction l with
  | nil =>
    intro _ _ q hq
    simp [List.dropWhile] at hq
  | cons x xs ih =>
    intro hp hmin q hq
    by_cases hx : (x.2 == c) = true
    · simp only [List.dropWhile, hx] at hq
      exact ih (List.pairwise_cons.mp hp).2
        (fun q' hq' => hmin q' (List.mem_cons_of_mem _ hq')) q hq
    · have hx' : (x.2 == c) = false := by simpa using hx
      simp only [List.dropWhile, hx'] at hq
      have hxc : x.2 ≠ c := by simpa using hx
      rcases List.mem_cons.mp hq with rfl | hq'
      · have := hmin q (List.mem_cons_self _ _)
        omega
      · have hxq := (List.pairwise_cons.mp hp).1 q hq'
        have hcx := hmin x (List.mem_cons_self _ _)
        omega

/-- Main induction for the generator's greedy placement: processing a
column-sorted list of at most 3 numbers per column from a balanced state
whose counts plus remaining numbers add to 15 ends with row counts exactly
`[5, 5, 5]`, and writes exactly the processed numbers into the grid (the
extraction grows by precisely them, up to permutation). -/
theorem placeAll_strong :
    ∀ (fuel : Nat) (nums : List (Int × Nat)) (st : PlaceState),
      nums.length ≤ fuel →
      List.Pairwise (fun p q => p.2 ≤ q.2) nums →
      (∀ c < 9, nums.countP (fun p => p.2 == c) ≤ 3) →
      (∀ p ∈ nums, 0 < p.1 ∧ p.2 < 9) →
      GridShape st.grid →
      st.rowCounts.length = 3 →
      st.rowCounts.getD 0 0 ≤ 5 →
      st.rowCounts.getD 1 0 ≤ 5 →
      st.rowCounts.getD 2 0 ≤ 5 →
      max3 st.rowCounts ≤ min3 st.rowCounts + 1 →
      st.rowCounts.sum + nums.length = 15 →
      (∀ p ∈ nums, ∀ r' < 3, cell st.grid r' p.2 = 0) →
      (placeAll nums st).rowCounts = [5, 5, 5] ∧
      List.Perm (extractFlat (placeAll nums st).grid)
        (nums.map Prod.fst ++ extractFlat st.grid) := by
  intro fuel
  induction fuel with
  | zero =>
    intro nums st hlen _ _ _ _ hclen h0 h1 h2 _ hsum _
    have hnil : nums = [] := List.length_eq_zero.mp (by omega)
    subst hnil
    exact ⟨counts_eq_555 hclen (by simpa using hsum) h0 h1 h2, List.Perm.refl _⟩
  | succ fuel ih =>
    intro nums st hlen hsort hcol hmem hs hclen h0 h1 h2 hspread hsum hfresh
    cases nums with
    | nil =>
      exact ⟨counts_eq_555 hclen (by simpa using hsum) h0 h1 h2,
        List.Perm.refl _⟩
    | cons p rest0 =>
      have hp := hmem p (List.mem_cons_self _ _)
      have hsplit := List.takeWhile_append_dropWhile
        (fun q : Int × Nat => q.2 == p.2) (p :: rest0)
      have hgmem : ∀ q ∈ (p :: rest0).takeWhile (fun q => q.2 == p.2),
          q.2 = p.2 ∧ 0 < q.1 := by
        intro q hq
        have hq1 := List.mem_takeWhile_imp hq
        have hq2 := (List.takeWhile_sublist _).subset hq
        exact ⟨by simpa using hq1, (hmem q hq2).1⟩
      have hglen : ((p :: rest0).takeWhile (fun q => q.2 == p.2)).length ≤ 3 := by
        have hfs : ((p :: rest0).takeWhile (fun q => q.2 == p.2)).filter
            (fun q => q.2 == p.2) =
            (p :: rest0).takeWhile (fun q => q.2 == p.2) := by
          rw [List.filter_eq_self]
          intro a ha
          exact @List.mem_takeWhile_imp _ (fun q : Int × Nat => q.2 == p.2)
            (p :: rest0) a ha
        have hsub := List.Sublist.filter (fun q : Int × Nat => q.2 == p.2)
          (@List.takeWhile_sublist _ (p :: rest0) (fun q : Int × Nat => q.2 == p.2))
        rw [hfs] at hsub
        have hle := hsub.length_le
        rw [← List.countP_eq_length_filter] at hle
        exact le_trans hle (hcol p.2 hp.2)
      have hgpos : 0 < ((p :: rest0).takeWhile (fun q => q.2 == p.2)).length := by
        rw [List.takeWhile_cons_of_pos (by simp)]
        simp
      have hrest_gt : ∀ q ∈ (p :: rest0).dropWhile (fun q => q.2 == p.2),
          p.2 < q.2 := by
        refine dropWhile_col_gt _ hsort ?_
        intro q hq
        rcases List.mem_cons.mp hq with rfl | hq'
        · omega
        · exact (List.pairwise_cons.mp hsort).1 q hq'
      have hfreeInit : freeAt st.grid p.2 = [true, true, true] := by
        unfold freeAt
        rw [hfresh p (List.mem_cons_self _ _) 0 (by omega),
            hfresh p (List.mem_cons_self _ _) 1 (by omega),
            hfresh p (List.mem_cons_self _ _) 2 (by omega)]
        rfl
      rcases List.length_eq_three.mp hclen with ⟨a, b, c, hab⟩
      have hgd0 : st.rowCounts.getD 0 0 = a := by rw [hab]; rfl
      have hgd1 : st.rowCounts.getD 1 0 = b := by rw [hab]; rfl
      have hgd2 : st.rowCounts.getD 2 0 = c := by rw [hab]; rfl
      have ha6 : a < 6 := by omega
      have hb6 : b < 6 := by omega
      have hc6 : c < 6 := by omega
      have hlentot : (p :: rest0).length =
          ((p :: rest0).takeWhile (fun q => q.2 == p.2)).length +
          ((p :: rest0).dropWhile (fun q => q.2 == p.2)).length := by
        conv_lhs => rw [← hsplit]
        rw [List.length_append]
      have hsumabc : st.rowCounts.sum = a + b + c := by
        rw [hab]
        simp only [List.sum_cons, List.sum_nil]
        omega
      have hk4 : ((p :: rest0).takeWhile (fun q => q.2 == p.2)).length < 4 := by
        omega
      have hsum3 : a + b + c +
          ((p :: rest0).takeWhile (fun q => q.2 == p.2)).length ≤ 15 := by
        have hlg := (@List.takeWhile_sublist _ (p :: rest0)
          (fun q : Int × Nat => q.2 == p.2)).length_le
        omega
      have hspread3 : max3 [a, b, c] ≤ min3 [a, b, c] + 1 := by
        rw [← hab]
        exact hspread
      have hok := groupRun_balanced_dec _ hk4 a ha6 b hb6 c hc6 hspread3 hsum3
      unfold groupRunOk at hok
      cases hrun : groupRun ((p :: rest0).takeWhile (fun q => q.2 == p.2)).length
          ([a, b, c], [true, true, true]) with
      | none =>
        rw [hrun] at hok
        exact absurd hok (by simp)
      | some resAb =>
        rw [hrun] at hok
        simp only [Bool.and_eq_true, decide_eq_true_eq] at hok
        obtain ⟨⟨⟨⟨⟨hsum', hlen3⟩, hbd0⟩, hbd1⟩, hbd2⟩, hsp⟩ := hok
        have hbr := place_group_bridge
          ((p :: rest0).takeWhile (fun q => q.2 == p.2)) p.2 st resAb hgmem
          hp.2 hs (by rw [hab, hfreeInit]; exact hrun)
        have hreseq : placeAll (p :: rest0) st =
            placeAll ((p :: rest0).dropWhile (fun q => q.2 == p.2))
              (placeAll ((p :: rest0).takeWhile (fun q => q.2 == p.2)) st) := by
          conv_lhs => rw [← hsplit]
          unfold placeAll
          rw [List.foldl_append]
        have hfresh2 : ∀ q ∈ (p :: rest0).dropWhile (fun q => q.2 == p.2),
            ∀ r' < 3,
            cell (placeAll ((p :: rest0).takeWhile (fun q => q.2 == p.2)) st).grid
              r' q.2 = 0 := by
          intro q hq r' hr'
          have hqneq : q.2 ≠ p.2 := by
            have := hrest_gt q hq
            omega
          rw [hbr.2.2.2 q.2 r' hqneq]
          exact hfresh q ((List.dropWhile_sublist _).subset hq) r' hr'
        have hih := ih ((p :: rest0).dropWhile (fun q => q.2 == p.2))
          (placeAll ((p :: rest0).takeWhile (fun q => q.2 == p.2)) st)
          (by omega) (List.Pairwise.sublist (List.dropWhile_sublist _) hsort)
          (fun c' hc' => le_trans (List.Sublist.countP_le _ (List.dropWhile_sublist _))
            (hcol c' hc'))
          (fun q hq => hmem q ((List.dropWhile_sublist _).subset hq))
          hbr.2.1 (by rw [hbr.1]; exact hlen3)
          (by rw [hbr.1]; exact hbd0) (by rw [hbr.1]; exact hbd1)
          (by rw [hbr.1]; exact hbd2) (by rw [hbr.1]; exact hsp)
          (by rw [hbr.1, hsum']; omega) hfresh2
        have hgext := place_group_extract
          ((p :: rest0).takeWhile (fun q => q.2 == p.2)) p.2 st resAb hgmem
          hp.2 hs (by rw [hab, hfreeInit]; exact hrun)
        have hmapsplit : (p :: rest0).map Prod.fst =
            ((p :: rest0).takeWhile (fun q => q.2 == p.2)).map Prod.fst ++
            ((p :: rest0).dropWhile (fun q => q.2 == p.2)).map Prod.fst := by
          conv_lhs => rw [← hsplit]
          rw [List.map_append]
        constructor
        · rw [hreseq]
          exact hih.1
        · rw [hreseq]
          refine hih.2.trans ?_
          refine (List.Perm.append_left _ hgext).trans ?_
          rw [hmapsplit, ← List.append_assoc]
          exact List.Perm.append_right _ List.perm_append_comm

/-- C3: for every per-column selection totalling 15 numbers with at most 3
per column, processed in ascending column order, the generator's greedy row
placement places all 15 numbers and leaves each row with exactly 5. -/
theorem greedy_row_placement_balances (nums : List (Int × Nat))
    (hsort : List.Pairwise (fun p q => p.2 ≤ q.2) nums)
    (hcol : ∀ c < 9, nums.countP (fun p => p.2 == c) ≤ 3)
    (hlen : nums.length = 15)
    (hmem : ∀ p ∈ nums, 0 < p.1 ∧ p.2 < 9) :
    (placeAll nums ⟨emptyGrid, [0, 0, 0]⟩).rowCounts = [5, 5, 5] := by
  refine (placeAll_strong 15 nums ⟨emptyGrid, [0, 0, 0]⟩ (by omega) hsort hcol hmem
    gridShape_empty rfl (by simp) (by simp) (by simp) (by decide)
    (by simp [hlen]) ?_).1
  intro p _ r' _
  exact cell_emptyGrid r' p.2

/-- The column selection produced by the all-ones random stream, as
`(number, column)` pairs. -/
def wPairs : List (Int × Nat) :=
  [(1, 0), (3, 0), (10, 1), (12, 1), (20, 2), (22, 2), (30, 3), (32, 3),
   (40, 4), (42, 4), (50, 5), (52, 5), (60, 6), (62, 6), (70, 7)]

/-- Witness for C3 at a concrete selection. -/
theorem greedy_row_placement_balances_witness :
    (placeAll wPairs ⟨emptyGrid, [0, 0, 0]⟩).rowCounts = [5, 5, 5] :=
  greedy_row_placement_balances wPairs (by decide) (by decide) (by decide)
    (by decide)

/-! ## Bucket counts pointwise, and the overflow flag (towards C2 and C5) -/

theorem getD_replicate_zeroN :
    ∀ (n c : Nat), (List.replicate n (0 : Nat)).getD c 0 = 0
  | 0, _ => rfl
  | _ + 1, 0 => rfl
  | n + 1, c + 1 => getD_replicate_zeroN n c

theorem bucketStep_eq_none {counts : List Nat} {n : Int}
    (hb : bucketFind n = none) : bucketStep counts n = counts := by
  unfold bucketStep
  rw [hb]

theorem bucketStep_eq_some {counts : List Nat} {n : Int} {c : Nat}
    (hb : bucketFind n = some c) :
    bucketStep counts n = counts.set c (counts.getD c 0 + 1) := by
  unfold bucketStep
  rw [hb]

theorem overflowStep_eq_none {acc : List Nat × Bool} {n : Int}
    (hb : bucketFind n = none) : overflowStep acc n = acc := by
  unfold overflowStep
  rw [hb]

theorem overflowStep_eq_some {acc : List Nat × Bool} {n : Int} {c : Nat}
    (hb : bucketFind n = some c) :
    overflowStep acc n = (acc.1.set c (acc.1.getD c 0 + 1),
      acc.2 || decide (3 < (acc.1.set c (acc.1.getD c 0 + 1)).getD c 0)) := by
  unfold overflowStep
  rw [hb]

theorem foldl_bucketStep_getD :
    ∀ (valid : List Int) (counts : List Nat) (c : Nat), counts.length = 9 →
      (valid.foldl bucketStep counts).getD c 0 =
        counts.getD c 0 + valid.countP (fun n => bucketFind n == some c)
  | [], counts, c, _ => by simp
  | n :: rest, counts, c, h => by
    rw [List.foldl_cons, List.countP_cons,
      foldl_bucketStep_getD rest (bucketStep counts n) c
        (by rw [bucketStep_length, h])]
    cases hb : bucketFind n with
    | none =>
      rw [bucketStep_eq_none hb]
      simp [hb]
    | some c' =>
      rw [bucketStep_eq_some hb]
      have hc9 : c' < 9 := (bucketFind_some_elim hb).1
      by_cases hcc : c' = c
      · subst hcc
        rw [getD_set_self _ _ _ _ (by omega)]
        simp only [hb, beq_self_eq_true, if_true]
        omega
      · rw [getD_set_ne _ _ _ _ _ hcc]
        simp [hb, hcc]

theorem bucketCounts_getD (valid : List Int) (c : Nat) :
    (bucketCounts valid).getD c 0 =
      valid.countP (fun n => bucketFind n == some c) := by
  unfold bucketCounts
  rw [foldl_bucketStep_getD valid _ c (by simp)]
  rw [getD_replicate_zeroN]
  omega

theorem foldl_bucketStepQ_getD :
    ∀ (valid : List ℚ) (counts : List Nat) (c : Nat), counts.length = 9 →
      (valid.foldl bucketStepQ counts).getD c 0 =
        counts.getD c 0 + valid.countP (fun n => bucketFindQ n == some c)
  | [], counts, c, _ => by simp
  | n :: rest, counts, c, h => by
    rw [List.foldl_cons, List.countP_cons,
      foldl_bucketStepQ_getD rest (bucketStepQ counts n) c
        (by rw [bucketStepQ_length, h])]
    cases hb : bucketFindQ n with
    | none =>
      rw [bucketStepQ_eq_none hb]
      simp [hb]
    | some c' =>
      rw [bucketStepQ_eq_some hb]
      have hc9 : c' < 9 := (bucketFindQ_some_elim hb).1
      by_cases hcc : c' = c
      · subst hcc
        rw [getD_set_self _ _ _ _ (by omega)]
        simp only [hb, beq_self_eq_true, if_true]
        omega
      · rw [getD_set_ne _ _ _ _ _ hcc]
        simp [hb, hcc]

theorem bucketCountsQ_getD (valid : List ℚ) (c : Nat) :
    (bucketCountsQ valid).getD c 0 =
      valid.countP (fun n => bucketFindQ n == some c) := by
  unfold bucketCountsQ
  rw [foldl_bucketStepQ_getD valid _ c (by simp)]
  rw [getD_replicate_zeroN]
  omega

theorem overflowFold_iff :
    ∀ (valid : List Int) (counts : List Nat) (flag : Bool),
      counts.length = 9 →
      (flag = false → ∀ c < 9, counts.getD c 0 ≤ 3) →
      ((valid.foldl overflowStep (counts, flag)).2 = true ↔
        flag = true ∨ ∃ c, c < 9 ∧ 3 < (valid.foldl bucketStep counts).getD c 0) := by
  intro valid
  induction valid with
  | nil =>
    intro counts flag h hle
    simp only [List.foldl_nil]
    constructor
    · intro hf
      exact Or.inl hf
    · rintro (hf | ⟨c, hc9, hgt⟩)
      · exact hf
      · cases flag with
        | true => rfl
        | false =>
          have := hle rfl c hc9
          omega
  | cons n rest ih =>
    intro counts flag h hle
    cases hb : bucketFind n with
    | none =>
      have e1 : (n :: rest).foldl overflowStep (counts, flag) =
          rest.foldl overflowStep (counts, flag) := by
        rw [List.foldl_cons, overflowStep_eq_none hb]
      have e2 : (n :: rest).foldl bucketStep counts =
          rest.foldl bucketStep counts := by
        rw [List.foldl_cons, bucketStep_eq_none hb]
      rw [e1, e2]
      exact ih counts flag h hle
    | some c' =>
      have hc9 : c' < 9 := (bucketFind_some_elim hb).1
      have hlen' : (counts.set c' (counts.getD c' 0 + 1)).length = 9 := by
        rw [List.length_set]
        exact h
      have e1 : (n :: rest).foldl overflowStep (counts, flag) =
          rest.foldl overflowStep (counts.set c' (counts.getD c' 0 + 1),
            flag || decide (3 < (counts.set c' (counts.getD c' 0 + 1)).getD c' 0)) := by
        rw [List.foldl_cons, overflowStep_eq_some hb]
      have e2 : (n :: rest).foldl bucketStep counts =
          rest.foldl bucketStep (counts.set c' (counts.getD c' 0 + 1)) := by
        rw [List.foldl_cons, bucketStep_eq_some hb]
      rw [e1, e2]
      cases flag with
      | true =>
        rw [ih _ _ hlen' (fun hfalse => absurd hfalse (by simp))]
        simp
      | false =>
        have hall := hle rfl
        by_cases hgt : 3 < (counts.set c' (counts.getD c' 0 + 1)).getD c' 0
        · have hflag : (false || decide
              (3 < (counts.set c' (counts.getD c' 0 + 1)).getD c' 0)) = true := by
            rw [Bool.false_or]
            exact decide_eq_true hgt
          rw [hflag, ih _ true hlen' (fun hfalse => absurd hfalse (by simp))]
          constructor
          · intro _
            right
            refine ⟨c', hc9, ?_⟩
            rw [foldl_bucketStep_getD rest _ c' hlen']
            omega
          · intro _
            exact Or.inl rfl
        · have hflag : (false || decide
              (3 < (counts.set c' (counts.getD c' 0 + 1)).getD c' 0)) = false := by
            rw [Bool.false_or]
            exact decide_eq_false hgt
          have hle' : false = false →
              ∀ c < 9, (counts.set c' (counts.getD c' 0 + 1)).getD c 0 ≤ 3 := by
            intro _ c hc
            by_cases hcc : c' = c
            · subst hcc
              omega
            · rw [getD_set_ne _ _ _ _ _ hcc]
              exact hall c hc
          rw [hflag, ih _ false hlen' hle']

theorem hasOverflowFold_iff (valid : List Int) :
    hasOverflowFold valid = true ↔
      ∃ c, c < 9 ∧ 3 < (bucketCounts valid).getD c 0 := by
  unfold hasOverflowFold bucketCounts
  rw [overflowFold_iff valid _ false (by simp)
    (fun _ c _ => by rw [getD_replicate_zeroN]; omega)]
  simp

/-! ## The analyzer's greedy placement, abstracted (towards C5) -/

/-- One abstract placement of the analyzer's manual layout: `analyzeBestRow`
picks the row, placement happens only below capacity (and is a silent no-op
otherwise, modelled as `none` here since the balanced cases never hit it). -/
def analyzeStep (counts : List Nat) : Option (Nat × List Nat) :=
  if counts.getD (analyzeBestRow counts) 0 < 5 then
    some (analyzeBestRow counts,
      counts.set (analyzeBestRow counts) (counts.getD (analyzeBestRow counts) 0 + 1))
  else none

def analyzeRun : Nat → List Nat → List Nat → Option (List Nat × List Nat)
  | 0, counts, rows => some (rows, counts)
  | k + 1, counts, rows =>
    match analyzeStep counts with
    | none => none
    | some rc => analyzeRun k rc.2 (rows ++ [rc.1])

/-- Certificate for one column group of the analyzer's layout: all `k`
placements succeed, into pairwise distinct rows below 3, and the counts stay
descending, within spread 1, at most 5, with the right sum. -/
def analyzeRunOk (k a b c : Nat) : Bool :=
  match analyzeRun k [a, b, c] [] with
  | none => false
  | some rc =>
    decide rc.1.Nodup && rc.1.all (fun r => decide (r < 3)) &&
    decide (rc.2.sum = a + b + c + k) && decide (rc.2.length = 3) &&
    decide (rc.2.getD 0 0 ≤ 5) && decide (rc.2.getD 1 0 ≤ 5) &&
    decide (rc.2.getD 2 0 ≤ 5) &&
    decide (rc.2.getD 1 0 ≤ rc.2.getD 0 0) &&
    decide (rc.2.getD 2 0 ≤ rc.2.getD 1 0) &&
    decide (max3 rc.2 ≤ min3 rc.2 + 1)

def analyzeLemmaB : Bool :=
  (List.range 4).all fun k =>
    (List.range 6).all fun a =>
      (List.range 6).all fun b =>
        (List.range 6).all fun c =>
          !(decide (b ≤ a) && decide (c ≤ b) &&
              decide (max3 [a, b, c] ≤ min3 [a, b, c] + 1) &&
              decide (a + b + c + k ≤ 15)) ||
            analyzeRunOk k a b c

theorem analyzeLemmaB_true : analyzeLemmaB = true := by decide

theorem analyzeRun_balanced_dec : ∀ k < 4, ∀ a < 6, ∀ b < 6, ∀ c < 6,
    b ≤ a → c ≤ b → max3 [a, b, c] ≤ min3 [a, b, c] + 1 →
    a + b + c + k ≤ 15 → analyzeRunOk k a b c = true := by
  intro k hk a ha b hb c hc h1 h2 h3 h4
  have hall := analyzeLemmaB_true
  unfold analyzeLemmaB at hall
  rw [List.all_eq_true] at hall
  have ha1 := hall k (List.mem_range.mpr hk)
  rw [List.all_eq_true] at ha1
  have ha2 := ha1 a (List.mem_range.mpr ha)
  rw [List.all_eq_true] at ha2
  have ha3 := ha2 b (List.mem_range.mpr hb)
  rw [List.all_eq_true] at ha3
  have ha4 := ha3 c (List.mem_range.mpr hc)
  simpa [h1, h2, h3, h4] using ha4

theorem analyzeBestRow_lt3 (counts : List Nat) : analyzeBestRow counts < 3 := by
  unfold analyzeBestRow
  dsimp only
  split_ifs <;> omega

theorem filter_length_set :
    ∀ (row : List Int) (c : Nat) (v : Int), c < row.length →
      row.getD c 0 = 0 → v ≠ 0 →
      ((row.set c v).filter (fun x => x != 0)).length =
        (row.filter (fun x => x != 0)).length + 1
  | [], c, v, hc, _, _ => absurd hc (by simp)
  | x :: xs, 0, v, _, h0, hv => by
    have hx : x = 0 := by simpa using h0
    subst hx
    show ((v :: xs).filter _).length = ((0 :: xs).filter _).length + 1
    rw [@List.filter_cons_of_pos _ (fun x => x != 0) v xs (by simpa using hv),
      @List.filter_cons_of_neg _ (fun x => x != 0) 0 xs (by simp)]
    simp
  | x :: xs, c + 1, v, hc, h0, hv => by
    show ((x :: xs.set c v).filter _).length = ((x :: xs).filter _).length + 1
    have hc' : c < xs.length := by simpa using hc
    have h0' : xs.getD c 0 = 0 := by simpa [List.getD_cons_succ] using h0
    by_cases hx : (x != 0) = true
    · rw [@List.filter_cons_of_pos _ (fun x => x != 0) x (xs.set c v) hx,
        @List.filter_cons_of_pos _ (fun x => x != 0) x xs hx]
      simp only [List.length_cons]
      rw [filter_length_set xs c v hc' h0' hv]
    · rw [@List.filter_cons_of_neg _ (fun x => x != 0) x (xs.set c v) hx,
        @List.filter_cons_of_neg _ (fun x => x != 0) x xs hx]
      exact filter_length_set xs c v hc' h0' hv

theorem rowNumbersCount_setCell_same {g : Grid} {r c : Nat} {v : Int}
    (hs : GridShape g) (hr : r < 3) (hc : c < 9)
    (hcell : cell g r c = 0) (hv : v ≠ 0) :
    rowNumbersCount (setCell g r c v) r = rowNumbersCount g r + 1 := by
  unfold rowNumbersCount setCell
  rw [getD_set_self _ _ _ _ (by rw [hs.1]; omega)]
  exact filter_length_set _ c v (by rw [row_length hs hr]; omega) hcell hv

theorem rowNumbersCount_setCell_other {g : Grid} {r c : Nat} {v : Int}
    {r' : Nat} (hne : r ≠ r') :
    rowNumbersCount (setCell g r c v) r' = rowNumbersCount g r' := by
  unfold rowNumbersCount setCell
  rw [getD_set_ne _ _ _ _ _ hne]

theorem analyzeRun_takeLead :
    ∀ (k : Nat) (counts acc rows cnts : List Nat),
      analyzeRun k counts acc = some (rows, cnts) → List.IsPrefix acc rows
  | 0, counts, acc, rows, cnts, h => by
    simp only [analyzeRun, Option.some.injEq, Prod.mk.injEq] at h
    rw [← h.1]
  | k + 1, counts, acc, rows, cnts, h => by
    rw [analyzeRun] at h
    cases hstep : analyzeStep counts with
    | none =>
      rw [hstep] at h
      exact absurd h (by simp)
    | some rc =>
      rw [hstep] at h
      exact (List.prefix_append acc [rc.1]).trans
        (analyzeRun_takeLead k rc.2 (acc ++ [rc.1]) rows cnts h)

/-- Laying out one column group with the analyzer's greedy rule follows the
abstract `analyzeRun` machine; the writes land in distinct fresh cells, so
the group's numbers are added to the grid exactly, other columns are
untouched, and the stored row counts keep tracking the true row fills. -/
theorem analyze_group_bridge :
    ∀ (group : List Int) (c : Nat) (st : PlaceState) (acc rows cnts : List Nat),
      (∀ n ∈ group, n ≠ 0) → c < 9 → GridShape st.grid →
      st.rowCounts.length = 3 →
      (∀ r < 3, st.rowCounts.getD r 0 = rowNumbersCount st.grid r) →
      analyzeRun group.length st.rowCounts acc = some (rows, cnts) →
      rows.Nodup →
      (∀ r < 3, r ∉ acc → cell st.grid r c = 0) →
      (group.foldl (fun s n => analyzePlaceOne s (n, c)) st).rowCounts = cnts ∧
      GridShape (group.foldl (fun s n => analyzePlaceOne s (n, c)) st).grid ∧
      (∀ c' r', c' ≠ c →
        cell (group.foldl (fun s n => analyzePlaceOne s (n, c)) st).grid r' c' =
          cell st.grid r' c') ∧
      (∀ r < 3,
        (group.foldl (fun s n => analyzePlaceOne s (n, c)) st).rowCounts.getD r 0 =
          rowNumbersCount (group.foldl (fun s n => analyzePlaceOne s (n, c)) st).grid r) ∧
      List.Perm
        (extractFlat (group.foldl (fun s n => analyzePlaceOne s (n, c)) st).grid)
        (group ++ extractFlat st.grid) := by
  intro group
  induction group with
  | nil =>
    intro c st acc rows cnts _ _ hs _ hsync hrun _ _
    simp only [List.length_nil, analyzeRun, Option.some.injEq, Prod.mk.injEq] at hrun
    refine ⟨hrun.2, hs, fun _ _ _ => rfl, hsync, ?_⟩
    simp
  | cons n gs ih =>
    intro c st acc rows cnts hmem hc hs hclen hsync hrun hnd hfresh
    simp only [List.length_cons] at hrun
    rw [analyzeRun] at hrun
    cases hstep : analyzeStep st.rowCounts with
    | none =>
      rw [hstep] at hrun
      exact absurd hrun (by simp)
    | some rc =>
      rw [hstep] at hrun
      have hrun' : analyzeRun gs.length rc.2 (acc ++ [rc.1]) =
          some (rows, cnts) := hrun
      unfold analyzeStep at hstep
      by_cases hlt : st.rowCounts.getD (analyzeBestRow st.rowCounts) 0 < 5
      case neg =>
        rw [if_neg hlt] at hstep
        exact absurd hstep (by simp)
      case pos =>
      rw [if_pos hlt] at hstep
      have hstep' : (analyzeBestRow st.rowCounts,
          st.rowCounts.set (analyzeBestRow st.rowCounts)
            (st.rowCounts.getD (analyzeBestRow st.rowCounts) 0 + 1)) = rc := by
        injection hstep
      have hr0 : rc.1 = analyzeBestRow st.rowCounts := by
        rw [← hstep']
      have hc2 : rc.2 = st.rowCounts.set (analyzeBestRow st.rowCounts)
          (st.rowCounts.getD (analyzeBestRow st.rowCounts) 0 + 1) := by
        rw [← hstep']
      have hr3 : analyzeBestRow st.rowCounts < 3 := analyzeBestRow_lt3 _
      have hpre := analyzeRun_takeLead gs.length rc.2 (acc ++ [rc.1]) rows cnts hrun'
      have hndacc : (acc ++ [rc.1]).Nodup := hpre.sublist.nodup hnd
      have hnotin : rc.1 ∉ acc := fun hin =>
        List.disjoint_of_nodup_append hndacc hin (by simp)
      have hn0 : n ≠ 0 := hmem n (List.mem_cons_self _ _)
      have hcell0 : cell st.grid (analyzeBestRow st.rowCounts) c = 0 := by
        refine hfresh _ hr3 ?_
        rw [← hr0]
        exact hnotin
      have hone : analyzePlaceOne st (n, c) = PlaceState.mk
          (setCell st.grid (analyzeBestRow st.rowCounts) c n)
          (st.rowCounts.set (analyzeBestRow st.rowCounts)
            (st.rowCounts.getD (analyzeBestRow st.rowCounts) 0 + 1)) := by
        unfold analyzePlaceOne
        rw [if_pos hlt]
      have hs1 : GridShape (setCell st.grid (analyzeBestRow st.rowCounts) c n) :=
        setCell_shape hs hr3
      have hclen1 : (st.rowCounts.set (analyzeBestRow st.rowCounts)
          (st.rowCounts.getD (analyzeBestRow st.rowCounts) 0 + 1)).length = 3 := by
        rw [List.length_set]
        exact hclen
      have hsync1 : ∀ r < 3,
          (st.rowCounts.set (analyzeBestRow st.rowCounts)
            (st.rowCounts.getD (analyzeBestRow st.rowCounts) 0 + 1)).getD r 0 =
          rowNumbersCount (setCell st.grid (analyzeBestRow st.rowCounts) c n) r := by
        intro r hr
        by_cases hrr : analyzeBestRow st.rowCounts = r
        · subst hrr
          rw [getD_set_self _ _ _ _ (by rw [hclen]; exact hr3),
            rowNumbersCount_setCell_same hs hr3 hc hcell0 hn0, hsync _ hr3]
        · rw [getD_set_ne _ _ _ _ _ hrr, rowNumbersCount_setCell_other hrr,
            hsync r hr]
      have hrun1 : analyzeRun gs.length
          (st.rowCounts.set (analyzeBestRow st.rowCounts)
            (st.rowCounts.getD (analyzeBestRow st.rowCounts) 0 + 1))
          (acc ++ [rc.1]) = some (rows, cnts) := by
        rw [← hc2]
        exact hrun'
      have hfresh1 : ∀ r < 3, r ∉ acc ++ [rc.1] →
          cell (setCell st.grid (analyzeBestRow st.rowCounts) c n) r c = 0 := by
        intro r hr hrin
        simp only [List.mem_append, List.mem_singleton, not_or] at hrin
        have hrne : analyzeBestRow st.rowCounts ≠ r := by
          rw [← hr0]
          exact fun he => hrin.2 he.symm
        rw [cell_setCell_ne n (Or.inl hrne)]
        exact hfresh r hr hrin.1
      have hres := ih c (PlaceState.mk
          (setCell st.grid (analyzeBestRow st.rowCounts) c n)
          (st.rowCounts.set (analyzeBestRow st.rowCounts)
            (st.rowCounts.getD (analyzeBestRow st.rowCounts) 0 + 1)))
        (acc ++ [rc.1]) rows cnts
        (fun q hq => hmem q (List.mem_cons_of_mem _ hq)) hc hs1 hclen1 hsync1
        hrun1 hnd hfresh1
      have hfold : (n :: gs).foldl (fun s q => analyzePlaceOne s (q, c)) st =
          gs.foldl (fun s q => analyzePlaceOne s (q, c))
            (analyzePlaceOne st (n, c)) := rfl
      rw [hfold, hone]
      refine ⟨hres.1, hres.2.1, ?_, hres.2.2.2.1, ?_⟩
      · intro c' r' hne
        rw [hres.2.2.1 c' r' hne]
        exact cell_setCell_ne n (Or.inr fun he => hne he.symm)
      · have hext : List.Perm
            (extractFlat (setCell st.grid (analyzeBestRow st.rowCounts) c n))
            (n :: extractFlat st.grid) :=
          extractFlat_setCell hs hr3 hc hn0 hcell0
        refine hres.2.2.2.2.trans ?_
        exact (List.Perm.append_left gs hext).trans List.perm_middle

theorem getD_map_range {α : Type} (f : Nat → α) (d : α) (n c : Nat)
    (hc : c < n) : ((List.range n).map f).getD c d = f c := by
  rw [List.getD_eq_getElem _ _ (by simpa using hc)]
  simp

theorem flatMap_perm_congr {α β : Type} (f g : α → List β) :
    ∀ cols : List α, (∀ c ∈ cols, List.Perm (f c) (g c)) →
      List.Perm (cols.flatMap f) (cols.flatMap g)
  | [], _ => by simp
  | c :: cols', h => by
    simp only [List.flatMap_cons]
    exact List.Perm.append (h c (List.mem_cons_self _ _))
      (flatMap_perm_congr f g cols' fun c' hc' => h c' (List.mem_cons_of_mem _ hc'))

theorem count_flatMap_filters (valid : List Int) (a : Int) :
    ∀ cols : List Nat, cols.Nodup →
      List.count a (cols.flatMap fun c =>
        valid.filter fun n => bucketFind n == some c) =
        if ∃ c ∈ cols, bucketFind a = some c then List.count a valid else 0 := by
  intro cols
  induction cols with
  | nil =>
    intro _
    simp
  | cons c cols' ih =>
    intro hnd
    rw [List.flatMap_cons, List.count_append, ih (List.nodup_cons.mp hnd).2]
    by_cases hb : bucketFind a = some c
    · have htail : ¬ ∃ c' ∈ cols', bucketFind a = some c' := by
        rintro ⟨c', hc', he⟩
        rw [hb] at he
        injection he with he'
        rw [← he'] at hc'
        exact (List.nodup_cons.mp hnd).1 hc'
      rw [if_neg htail, if_pos ⟨c, List.mem_cons_self _ _, hb⟩,
        List.count_filter (by simp [hb])]
      omega
    · have hnotmem : a ∉ valid.filter fun n => bucketFind n == some c := by
        intro hmem
        have hpa := (List.mem_filter.mp hmem).2
        rw [beq_iff_eq] at hpa
        exact hb hpa
      rw [List.count_eq_zero_of_not_mem hnotmem]
      have hiff : (∃ c' ∈ c :: cols', bucketFind a = some c') ↔
          (∃ c' ∈ cols', bucketFind a = some c') := by
        constructor
        · rintro ⟨c', hc', he⟩
          rcases List.mem_cons.mp hc' with rfl | h
          · exact absurd he hb
          · exact ⟨c', h, he⟩
        · rintro ⟨c', h, he⟩
          exact ⟨c', List.mem_cons_of_mem _ h, he⟩
      by_cases ht : ∃ c' ∈ cols', bucketFind a = some c'
      · rw [if_pos ht, if_pos (hiff.mpr ht)]
        omega
      · rw [if_neg ht, if_neg (fun hx => ht (hiff.mp hx))]

/-- Bucketing by the nine disjoint, exhaustive column ranges partitions a
list of in-range numbers. -/
theorem filters_partition_perm (valid : List Int)
    (hval : ∀ n ∈ valid, 1 ≤ n ∧ n ≤ 90) :
    List.Perm ((List.range 9).flatMap fun c =>
      valid.filter fun n => bucketFind n == some c) valid := by
  rw [List.perm_iff_count]
  intro a
  rw [count_flatMap_filters valid a (List.range 9) (List.nodup_range 9)]
  by_cases hmem : a ∈ valid
  · have hb := (bucketFind_isSome_iff a).mpr (hval a hmem)
    rcases Option.isSome_iff_exists.mp hb with ⟨c, hc⟩
    have hc9 : c < 9 := (bucketFind_some_elim hc).1
    rw [if_pos ⟨c, List.mem_range.mpr hc9, hc⟩]
  · rw [List.count_eq_zero_of_not_mem hmem]
    split <;> rfl

/-- Main induction for the analyzer's manual layout: processing the column
groups left to right preserves balance, descending row counts and the
count-to-grid synchronisation, and accumulates exactly the group members
into the grid. -/
theorem analyze_fold_strong :
    ∀ (cols : List Nat) (valid : List Int) (st : PlaceState),
      cols.Nodup → (∀ c ∈ cols, c < 9) →
      (∀ c, ∀ n ∈ (analyzeGroups valid).getD c [], n ≠ 0) →
      (∀ c ∈ cols, ((analyzeGroups valid).getD c []).length ≤ 3) →
      GridShape st.grid → st.rowCounts.length = 3 →
      st.rowCounts.getD 0 0 ≤ 5 → st.rowCounts.getD 1 0 ≤ 5 →
      st.rowCounts.getD 2 0 ≤ 5 →
      st.rowCounts.getD 1 0 ≤ st.rowCounts.getD 0 0 →
      st.rowCounts.getD 2 0 ≤ st.rowCounts.getD 1 0 →
      max3 st.rowCounts ≤ min3 st.rowCounts + 1 →
      (∀ r < 3, st.rowCounts.getD r 0 = rowNumbersCount st.grid r) →
      st.rowCounts.sum +
        (cols.flatMap fun c => (analyzeGroups valid).getD c []).length ≤ 15 →
      (∀ c ∈ cols, ∀ r < 3, cell st.grid r c = 0) →
      GridShape (cols.foldl (fun s c => ((analyzeGroups valid).getD c []).foldl
          (fun s n => analyzePlaceOne s (n, c)) s) st).grid ∧
      (cols.foldl (fun s c => ((analyzeGroups valid).getD c []).foldl
          (fun s n => analyzePlaceOne s (n, c)) s) st).rowCounts.length = 3 ∧
      (cols.foldl (fun s c => ((analyzeGroups valid).getD c []).foldl
          (fun s n => analyzePlaceOne s (n, c)) s) st).rowCounts.getD 0 0 ≤ 5 ∧
      (cols.foldl (fun s c => ((analyzeGroups valid).getD c []).foldl
          (fun s n => analyzePlaceOne s (n, c)) s) st).rowCounts.getD 1 0 ≤ 5 ∧
      (cols.foldl (fun s c => ((analyzeGroups valid).getD c []).foldl
          (fun s n => analyzePlaceOne s (n, c)) s) st).rowCounts.getD 2 0 ≤ 5 ∧
      (cols.foldl (fun s c => ((analyzeGroups valid).getD c []).foldl
          (fun s n => analyzePlaceOne s (n, c)) s) st).rowCounts.sum =
        st.rowCounts.sum +
          (cols.flatMap fun c => (analyzeGroups valid).getD c []).length ∧
      (∀ r < 3, (cols.foldl (fun s c => ((analyzeGroups valid).getD c []).foldl
          (fun s n => analyzePlaceOne s (n, c)) s) st).rowCounts.getD r 0 =
        rowNumbersCount (cols.foldl (fun s c =>
          ((analyzeGroups valid).getD c []).foldl
            (fun s n => analyzePlaceOne s (n, c)) s) st).grid r) ∧
      List.Perm (extractFlat (cols.foldl (fun s c =>
          ((analyzeGroups valid).getD c []).foldl
            (fun s n => analyzePlaceOne s (n, c)) s) st).grid)
        ((cols.flatMap fun c => (analyzeGroups valid).getD c []) ++
          extractFlat st.grid) := by
  intro cols
  induction cols with
  | nil =>
    intro valid st _ _ _ _ hs hclen h0 h1 h2 _ _ _ hsync _ _
    exact ⟨hs, hclen, h0, h1, h2, by simp, hsync, by simp⟩
  | cons c0 cols' ih =>
    intro valid st hnd hmem hnz hglen hs hclen h0 h1 h2 hd1 hd2 hspread hsync
      hbudget hfresh
    rcases List.length_eq_three.mp hclen with ⟨a, b, c, hab⟩
    have hgd0 : st.rowCounts.getD 0 0 = a := by rw [hab]; rfl
    have hgd1 : st.rowCounts.getD 1 0 = b := by rw [hab]; rfl
    have hgd2 : st.rowCounts.getD 2 0 = c := by rw [hab]; rfl
    have hsumabc : st.rowCounts.sum = a + b + c := by
      rw [hab]
      simp only [List.sum_cons, List.sum_nil]
      omega
    have hlenflat : ((c0 :: cols').flatMap fun c =>
        (analyzeGroups valid).getD c []).length =
        ((analyzeGroups valid).getD c0 []).length +
        (cols'.flatMap fun c => (analyzeGroups valid).getD c []).length := by
      rw [List.flatMap_cons, List.length_append]
    have hk4 : ((analyzeGroups valid).getD c0 []).length < 4 := by
      have := hglen c0 (List.mem_cons_self _ _)
      omega
    have hok := analyzeRun_balanced_dec _ hk4 a (by omega) b (by omega) c
      (by omega) (by omega) (by omega) (by rw [← hab]; exact hspread)
      (by omega)
    unfold analyzeRunOk at hok
    cases hrun : analyzeRun ((analyzeGroups valid).getD c0 []).length
        [a, b, c] [] with
    | none =>
      rw [hrun] at hok
      exact absurd hok (by simp)
    | some rc =>
      rw [hrun] at hok
      simp only [Bool.and_eq_true, decide_eq_true_eq, List.all_eq_true] at hok
      obtain ⟨⟨⟨⟨⟨⟨⟨⟨⟨hndrows, hrows3⟩, hsum'⟩, hlen3⟩, hb0⟩, hb1⟩, hb2⟩,
        hd1'⟩, hd2'⟩, hsp'⟩ := hok
      have hbr := analyze_group_bridge ((analyzeGroups valid).getD c0 []) c0 st
        [] rc.1 rc.2 (hnz c0) (hmem c0 (List.mem_cons_self _ _)) hs hclen hsync
        (by rw [hab]; exact hrun) hndrows
        (fun r hr _ => hfresh c0 (List.mem_cons_self _ _) r hr)
      have hfold : (c0 :: cols').foldl (fun s c =>
          ((analyzeGroups valid).getD c []).foldl
            (fun s n => analyzePlaceOne s (n, c)) s) st =
          cols'.foldl (fun s c => ((analyzeGroups valid).getD c []).foldl
            (fun s n => analyzePlaceOne s (n, c)) s)
            (((analyzeGroups valid).getD c0 []).foldl
              (fun s n => analyzePlaceOne s (n, c0)) st) := rfl
      rw [hfold]
      have hres := ih valid (((analyzeGroups valid).getD c0 []).foldl
          (fun s n => analyzePlaceOne s (n, c0)) st)
        (List.nodup_cons.mp hnd).2
        (fun c' hc' => hmem c' (List.mem_cons_of_mem _ hc')) hnz
        (fun c' hc' => hglen c' (List.mem_cons_of_mem _ hc'))
        hbr.2.1 (by rw [hbr.1]; exact hlen3)
        (by rw [hbr.1]; exact hb0) (by rw [hbr.1]; exact hb1)
        (by rw [hbr.1]; exact hb2) (by rw [hbr.1]; exact hd1')
        (by rw [hbr.1]; exact hd2') (by rw [hbr.1]; exact hsp')
        hbr.2.2.2.1
        (by rw [hbr.1, hsum']
            rw [hlenflat] at hbudget
            omega)
        (by intro c' hc' r hr
            have hne : c' ≠ c0 := fun he =>
              (List.nodup_cons.mp hnd).1 (he ▸ hc')
            rw [hbr.2.2.1 c' r hne]
            exact hfresh c' (List.mem_cons_of_mem _ hc') r hr)
      refine ⟨hres.1, hres.2.1, hres.2.2.1, hres.2.2.2.1, hres.2.2.2.2.1, ?_,
        hres.2.2.2.2.2.2.1, ?_⟩
      · rw [hres.2.2.2.2.2.1, hbr.1, hsum', hlenflat, hsumabc]
        omega
      · refine hres.2.2.2.2.2.2.2.trans ?_
        have hmid := List.Perm.append_left
          (cols'.flatMap fun c => (analyzeGroups valid).getD c [])
          hbr.2.2.2.2
        refine hmid.trans ?_
        rw [List.flatMap_cons, List.append_assoc]
        exact (List.perm_append_comm_assoc _ _ _).symm

/-- The analyzer's manual layout places exactly the input numbers and fills
each row with 5, for a valid 15-number list within the column invariant. -/
theorem analyzeManualPlace_exact (valid : List Int)
    (hval : ∀ n ∈ valid, 1 ≤ n ∧ n ≤ 90)
    (hlen : valid.length = 15)
    (hcol : ∀ c < 9, (bucketCounts valid).getD c 0 ≤ 3) :
    List.Perm (extractFlat (analyzeManualPlace valid).grid) valid ∧
    (∀ r < 3, rowNumbersCount (analyzeManualPlace valid).grid r = 5) := by
  have hgroup_eq : ∀ c, c < 9 → (analyzeGroups valid).getD c [] =
      sortInts (valid.filter fun n => bucketFind n == some c) := by
    intro c hc
    unfold analyzeGroups
    exact getD_map_range _ _ _ _ hc
  have hflat_perm : List.Perm ((List.range 9).flatMap fun c =>
      (analyzeGroups valid).getD c []) valid := by
    refine (flatMap_perm_congr _ _ (List.range 9) ?_).trans
      (filters_partition_perm valid hval)
    intro c hc
    rw [hgroup_eq c (List.mem_range.mp hc)]
    exact sortInts_perm _
  have hflat_len : ((List.range 9).flatMap fun c =>
      (analyzeGroups valid).getD c []).length = 15 := by
    rw [hflat_perm.length_eq, hlen]
  have hnz : ∀ c, ∀ n ∈ (analyzeGroups valid).getD c [], n ≠ 0 := by
    intro c n hn
    by_cases hc : c < 9
    · rw [hgroup_eq c hc] at hn
      have hmem1 := (sortInts_perm _).subset hn
      have hmem2 := (List.mem_filter.mp hmem1).1
      have := hval n hmem2
      omega
    · rw [List.getD_eq_default _ _ (by
        unfold analyzeGroups
        simp only [List.length_map, List.length_range]
        omega)] at hn
      exact absurd hn (List.not_mem_nil _)
  have hglen : ∀ c ∈ List.range 9, ((analyzeGroups valid).getD c []).length ≤ 3 := by
    intro c hc
    have hc9 := List.mem_range.mp hc
    rw [hgroup_eq c hc9, (sortInts_perm _).length_eq,
      ← List.countP_eq_length_filter]
    have hx := hcol c hc9
    rw [bucketCounts_getD] at hx
    exact hx
  have hres := analyze_fold_strong (List.range 9) valid ⟨emptyGrid, [0, 0, 0]⟩
    (List.nodup_range 9) (fun c hc => List.mem_range.mp hc) hnz hglen
    gridShape_empty rfl (by simp) (by simp) (by simp) (by simp) (by simp)
    (by decide) (by decide) (by rw [hflat_len]; simp)
    (fun c _ r _ => cell_emptyGrid r c)
  have hsum15 : ((List.range 9).foldl (fun s c =>
      ((analyzeGroups valid).getD c []).foldl
        (fun s n => analyzePlaceOne s (n, c)) s)
      ⟨emptyGrid, [0, 0, 0]⟩).rowCounts.sum = 15 := by
    rw [hres.2.2.2.2.2.1, hflat_len]
    simp
  have hcounts := counts_eq_555 hres.2.1 hsum15 hres.2.2.1 hres.2.2.2.1
    hres.2.2.2.2.1
  constructor
  · refine hres.2.2.2.2.2.2.2.trans ?_
    rw [show extractFlat emptyGrid = [] from rfl, List.append_nil]
    exact hflat_perm
  · intro r hr
    have hsync := hres.2.2.2.2.2.2.1 r hr
    show rowNumbersCount ((List.range 9).foldl (fun s c =>
      ((analyzeGroups valid).getD c []).foldl
        (fun s n => analyzePlaceOne s (n, c)) s)
      ⟨emptyGrid, [0, 0, 0]⟩).grid r = 5
    rw [← hsync, hcounts]
    interval_cases r <;> rfl

/-- C5: for a flat list of 15 in-range numbers whose column distribution
satisfies the at-most-3-per-column invariant, the reconstruction routine of
`analyzeTicket` takes the deterministic manual path, independent of the
random source: the grid's non-empty cells are precisely the input numbers
and every row holds exactly 5 of them. -/
theorem analyze_reconstruction_exact (nums : List Int) (r1 r2 : Rng)
    (hval : ∀ n ∈ nums, 1 ≤ n ∧ n ≤ 90)
    (hlen : nums.length = 15)
    (hcol : ∀ c < 9, (bucketCounts nums).getD c 0 ≤ 3) :
    analyzeTicketGrid nums r1 = (analyzeManualPlace nums).grid ∧
    analyzeTicketGrid nums r1 = analyzeTicketGrid nums r2 ∧
    List.Perm (extractFlat (analyzeTicketGrid nums r1)) nums ∧
    (∀ row < 3, rowNumbersCount (analyzeTicketGrid nums r1) row = 5) := by
  have hfilter : nums.filter (fun n => decide (0 < n)) = nums := by
    rw [List.filter_eq_self]
    intro n hn
    have := hval n hn
    simp only [decide_eq_true_eq]
    omega
  have hov : hasOverflowFold nums = false := by
    rcases hov' : hasOverflowFold nums with _ | _
    · rfl
    · exfalso
      rcases (hasOverflowFold_iff nums).mp hov' with ⟨c, hc9, hgt⟩
      have := hcol c hc9
      omega
  have hbranch : ∀ rr : Rng,
      analyzeTicketGrid nums rr = (analyzeManualPlace nums).grid := by
    intro rr
    unfold analyzeTicketGrid
    rw [hfilter, if_pos (by rw [hlen]; rfl), if_neg (by rw [hov]; simp)]
  refine ⟨hbranch r1, by rw [hbranch r1, hbranch r2], ?_, ?_⟩
  · rw [hbranch r1]
    exact (analyzeManualPlace_exact nums hval hlen hcol).1
  · intro row hrow
    rw [hbranch r1]
    exact (analyzeManualPlace_exact nums hval hlen hcol).2 row hrow

/-- A second concrete random source, to witness rng-independence. -/
def wRng0 : Rng := ⟨fun _ => 0, 0⟩

/-- A concrete flat list satisfying the column invariant. -/
def wFlat : List Int :=
  [1, 3, 10, 12, 20, 22, 30, 32, 40, 42, 50, 52, 60, 62, 70]

/-- Witness for C5 at a concrete flat list and two random sources. -/
theorem analyze_reconstruction_exact_witness :
    analyzeTicketGrid wFlat wRng = (analyzeManualPlace wFlat).grid ∧
    analyzeTicketGrid wFlat wRng = analyzeTicketGrid wFlat wRng0 ∧
    List.Perm (extractFlat (analyzeTicketGrid wFlat wRng)) wFlat ∧
    (∀ row < 3, rowNumbersCount (analyzeTicketGrid wFlat wRng) row = 5) :=
  analyze_reconstruction_exact wFlat wRng wRng0 (by decide) (by decide)
    (by decide)

/-! ## Chaining the generator into the validator (towards C2) -/

theorem ranges_disjoint {v : Int} {c c'' : Nat} (hc : c < 9) (hc'' : c'' < 9)
    (h1 : rangeMin c ≤ v) (h2 : v ≤ rangeMax c)
    (h3 : rangeMin c'' ≤ v) (h4 : v ≤ rangeMax c'') : c = c'' := by
  rw [rangeMin_closed c hc] at h1
  rw [rangeMax_closed c hc] at h2
  rw [rangeMin_closed c'' hc''] at h3
  rw [rangeMax_closed c'' hc''] at h4
  split_ifs at h1 h2 h3 h4 <;> omega

theorem mem_extractFlat_elim {g : Grid} {x : Int} (hx : x ∈ extractFlat g) :
    x ≠ 0 ∧ ∃ rr, rr < 3 ∧ ∃ cc, cc < 9 ∧ cell g rr cc = x := by
  unfold extractFlat at hx
  rcases List.mem_flatMap.mp hx with ⟨r, hr, hxr⟩
  rcases List.mem_filter.mp hxr with ⟨hxm, hxne⟩
  rcases List.mem_map.mp hxm with ⟨c, hcm, hcell⟩
  exact ⟨by simpa using hxne, r, List.mem_range.mp hr, c, List.mem_range.mp hcm,
    hcell⟩

theorem row_bucket_le_one {g : Grid} (hcir : CellsInRange g) (r c : Nat)
    (hr : r < 3) (_hc : c < 9) :
    List.countP (fun n => bucketFind n == some c)
      (((List.range 9).map fun c' => cell g r c').filter fun x => x != 0) ≤ 1 := by
  rw [List.countP_filter, List.countP_map]
  have hmono : List.countP
      ((fun n => (bucketFind n == some c) && (n != 0)) ∘ fun c' => cell g r c')
      (List.range 9) ≤ List.countP (fun c' => c' == c) (List.range 9) := by
    refine List.countP_mono_left ?_
    intro c' hc' hp
    simp only [Function.comp_apply, Bool.and_eq_true, beq_iff_eq,
      bne_iff_ne, ne_eq] at hp
    have hc'9 := List.mem_range.mp hc'
    have hin := hcir c' hc'9 r hr hp.2
    rcases bucketFind_some_elim hp.1 with ⟨hc9', hlo, hhi⟩
    have := ranges_disjoint hc'9 hc9' hin.1 hin.2 hlo hhi
    simp [this]
  refine le_trans hmono ?_
  have h1 := List.nodup_iff_count_le_one.mp (List.nodup_range 9) c
  exact le_trans (le_of_eq rfl) h1

/-- In a grid whose cells sit in their columns' ranges, at most 3 of the
extracted numbers fall into any single column bucket (one per row). -/
theorem extractFlat_bucket_le_three {g : Grid} (hcir : CellsInRange g)
    (c : Nat) (hc : c < 9) :
    List.countP (fun n => bucketFind n == some c) (extractFlat g) ≤ 3 := by
  unfold extractFlat
  rw [show List.range 3 = [0, 1, 2] from rfl]
  simp only [List.flatMap_cons, List.flatMap_nil, List.append_nil,
    List.countP_append]
  have h0 := row_bucket_le_one hcir 0 c (by omega) hc
  have h1 := row_bucket_le_one hcir 1 c (by omega) hc
  have h2 := row_bucket_le_one hcir 2 c (by omega) hc
  omega

theorem validNumbersOf_map_num (qs : List ℚ) :
    validNumbersOf (qs.map JSVal.num) =
      qs.filter fun q => decide (0 < q) := by
  unfold validNumbersOf
  rw [List.filterMap_map]
  induction qs with
  | nil => rfl
  | cons n rest ih =>
    by_cases h0 : 0 < n
    · simp [List.filterMap_cons, List.filter_cons, h0, ih]
    · simp [List.filterMap_cons, List.filter_cons, h0, ih]

theorem placeAll_shape : ∀ (nums : List (Int × Nat)) (st : PlaceState),
    GridShape st.grid → GridShape (placeAll nums st).grid := by
  intro nums
  induction nums with
  | nil => exact fun st h => h
  | cons p rest ih =>
    intro st h
    show GridShape (placeAll rest (placeOne st p)).grid
    refine ih _ ?_
    unfold placeOne
    cases hf : findBestRow st.rowCounts (freeAt st.grid p.2) with
    | none => exact h
    | some r => exact setCell_shape h (findBestRow_spec hf).1

theorem gen_shape {r : Rng} {t : TicketResult}
    (h : generateHousieTicket r = .ok t) : GridShape t.grid := by
  unfold generateHousieTicket at h
  split at h
  · exact absurd h (by simp)
  next s hsel =>
  split at h
  · exact absurd h (by simp)
  next u hval =>
  simp only [Except.ok.injEq] at h
  subst h
  exact placeAll_shape _ _ gridShape_empty

/-- C2: the flat list returned by a successful `generateHousieTicket` call
passes `validateExistingTicket` (its integer entries arriving as JS
numbers): valid, with an empty issue list. -/
theorem generated_ticket_passes_validator (parse : String → Option JSVal)
    (r : Rng) (t : TicketResult)
    (h : generateHousieTicket r = .ok t) :
    validateExistingTicket parse
        (.arr (t.flatNumbers.map (fun n : Int => JSVal.num (n : ℚ)))) =
      { isValid := true, issues := [] } := by
  obtain ⟨hval, hflat⟩ := generateHousieTicket_ok_elim h
  obtain ⟨htot, _, _, hcir, hnd⟩ := validateTicketE_ok_invariants hval
  have hs := gen_shape h
  have hperm : List.Perm t.flatNumbers (extractFlat t.grid) := by
    rw [hflat]
    exact sortInts_perm _
  have hext_eq := extractFlat_eq_allNumbers hs
  have hlen15 : t.flatNumbers.length = 15 := by
    rw [hperm.length_eq, hext_eq]
    exact htot
  have hmembounds : ∀ n ∈ t.flatNumbers, 1 ≤ n ∧ n ≤ 90 := by
    intro n hn
    have hn' := hperm.subset hn
    rcases mem_extractFlat_elim hn' with ⟨hne, rr, hrr, cc, hcc, hcell⟩
    have hin := hcir cc hcc rr hrr (by rw [hcell]; exact hne)
    rcases range_bounds cc hcc with ⟨hb1, hb2⟩
    rw [hcell] at hin
    omega
  have hnodup : t.flatNumbers.Nodup := by
    rw [hperm.nodup_iff, hext_eq]
    exact hnd
  have hmapeq : t.flatNumbers.map (fun n : Int => JSVal.num (n : ℚ)) =
      (t.flatNumbers.map (fun n : Int => (n : ℚ))).map JSVal.num := by
    rw [List.map_map]
    rfl
  have hqbounds : ∀ q ∈ t.flatNumbers.map (fun n : Int => (n : ℚ)),
      (1 : ℚ) ≤ q ∧ q ≤ 90 := by
    intro q hq
    rcases List.mem_map.mp hq with ⟨n, hn, rfl⟩
    rcases hmembounds n hn with ⟨hb1, hb2⟩
    exact ⟨by exact_mod_cast hb1, by exact_mod_cast hb2⟩
  have hqnodup : (t.flatNumbers.map (fun n : Int => (n : ℚ))).Nodup :=
    hnodup.map (fun a b hab => by exact_mod_cast hab)
  have hvalid_eq : validNumbersOf
      ((t.flatNumbers.map (fun n : Int => (n : ℚ))).map JSVal.num) =
      t.flatNumbers.map (fun n : Int => (n : ℚ)) := by
    rw [validNumbersOf_map_num, List.filter_eq_self]
    intro q hq
    have := (hqbounds q hq).1
    simp only [decide_eq_true_eq]
    linarith
  have hbuckets : ∀ c < 9,
      (bucketCountsQ (t.flatNumbers.map (fun n : Int => (n : ℚ)))).getD c 0 ≤ 3 := by
    intro c hc
    rw [bucketCountsQ_getD, List.countP_map]
    have hcongr : List.countP
        ((fun q => bucketFindQ q == some c) ∘ fun n : Int => (n : ℚ))
        t.flatNumbers =
        List.countP (fun n => bucketFind n == some c) t.flatNumbers := by
      apply List.countP_congr
      intro n hn
      simp only [Function.comp_apply, bucketFindQ_intCast]
    rw [hcongr, hperm.countP_eq]
    exact extractFlat_bucket_le_three hcir c hc
  rw [hmapeq, validateExistingTicket_arr_num]
  have hissues : ticketIssues
      ((t.flatNumbers.map (fun n : Int => (n : ℚ))).map JSVal.num)
      "Ticket needs regeneration for proper Housie format" = [] := by
    unfold ticketIssues
    rw [hvalid_eq]
    have hcount : countIssues (t.flatNumbers.map (fun n : Int => (n : ℚ))) = [] := by
      unfold countIssues
      rw [if_neg (by rw [List.length_map]; omega)]
    have hdup : dupIssues (t.flatNumbers.map (fun n : Int => (n : ℚ))) = [] := by
      unfold dupIssues
      rw [if_neg (by
        rw [List.dedup_eq_self.mpr hqnodup]
        omega)]
    have hrange : rangeIssues (t.flatNumbers.map (fun n : Int => (n : ℚ))) = [] := by
      unfold rangeIssues
      rw [List.filterMap_eq_nil_iff]
      intro q hq
      have hb := hqbounds q hq
      have h1 : ¬ q < 1 := not_lt.mpr hb.1
      have h2 : ¬ (90 : ℚ) < q := not_lt.mpr hb.2
      simp [h1, h2]
    have hcolIss : columnIssues
        (bucketCountsQ (t.flatNumbers.map (fun n : Int => (n : ℚ)))) = [] := by
      unfold columnIssues
      rw [List.filterMap_eq_nil_iff]
      intro c hc
      have h3 := hbuckets c (List.mem_range.mp hc)
      have h4 : ¬ 3 <
          (bucketCountsQ (t.flatNumbers.map (fun n : Int => (n : ℚ)))).getD c 0 := by
        omega
      simp [h4]
      simpa using h3
    rw [hcount, hdup, hrange, hcolIss]
    simp
  unfold checkTicketNumbers
  rw [hissues]
  rfl

/-- Witness for C2: the concrete generated ticket `wTicket`. -/
theorem generated_ticket_passes_validator_witness :
    validateExistingTicket (fun _ => none)
      (.arr (wTicket.flatNumbers.map (fun n : Int => JSVal.num (n : ℚ)))) =
      { isValid := true, issues := [] } :=
  generated_ticket_passes_validator (fun _ => none) wRng wTicket (by decide)

/-! ## The selection phase always succeeds (towards C6)

The generator's three `while` loops terminate on every random stream, and
the state they build satisfies the invariants that make the final self-check
pass.  First some list bookkeeping. -/

theorem sum_set_getD_add :
    ∀ (l : List Nat) (c k : Nat), c < l.length →
      (l.set c (l.getD c 0 + k)).sum = l.sum + k
  | [], _, _, h => absurd h (by simp)
  | x :: xs, 0, k, _ => by
    simp only [List.set, List.getD_cons_zero, List.sum_cons]
    omega
  | x :: xs, c + 1, k, h => by
    simp only [List.set, List.getD_cons_succ, List.sum_cons]
    rw [sum_set_getD_add xs c k (by simpa using h)]
    omega

theorem set_getD_self :
    ∀ (l : List Int) (i : Nat), i < l.length → l.set i (l.getD i 0) = l
  | [], _, h => absurd h (by simp)
  | _ :: _, 0, _ => rfl
  | x :: xs, i + 1, h => by
    simp only [List.set, List.getD_cons_succ]
    rw [set_getD_self xs i (by simpa using h)]

theorem rangeMin_le_rangeMax : ∀ c < 9, rangeMin c ≤ rangeMax c := by decide

theorem rangeList_length : ∀ c < 9, 9 ≤ (rangeList c).length := by decide

theorem rangeList_nodup : ∀ c < 9, (rangeList c).Nodup := by decide

theorem mem_rangeList {c : Nat} (hc : c < 9) {n : Int} :
    n ∈ rangeList c ↔ rangeMin c ≤ n ∧ n ≤ rangeMax c := by
  have hmm := rangeMin_le_rangeMax c hc
  unfold rangeList
  rw [List.mem_map]
  constructor
  · rintro ⟨k, hk, rfl⟩
    have hk' := List.mem_range.mp hk
    omega
  · rintro ⟨h1, h2⟩
    refine ⟨(n - rangeMin c).toNat, List.mem_range.mpr (by omega), by omega⟩

theorem avail_partition (m : List Int) :
    ∀ l : List Int,
      (l.filter (fun n => !m.contains n)).length +
      (l.filter (fun n => m.contains n)).length = l.length
  | [] => rfl
  | x :: xs => by
    have ih := avail_partition m xs
    rw [List.filter_cons, List.filter_cons]
    cases hx : m.contains x
    · rw [if_pos (by simp), if_neg (by simp)]
      simp only [List.length_cons]
      omega
    · rw [if_neg (by simp), if_pos rfl]
      simp only [List.length_cons]
      omega

theorem avail_removed_le (m l : List Int) (hnd : l.Nodup) :
    (l.filter (fun n => m.contains n)).length ≤ m.length := by
  refine (List.subperm_of_subset (hnd.filter _) ?_).length_le
  intro n hn
  have h2 := (List.mem_filter.mp hn).2
  simpa using h2

theorem availableFor_mem {s : SelState} {col : Nat} :
    ∀ n ∈ availableFor s col, n ∈ rangeList col ∧ n ∉ s.colNums.getD col [] := by
  intro n hn
  unfold availableFor at hn
  have h := List.mem_filter.mp hn
  refine ⟨h.1, ?_⟩
  simpa using h.2

theorem availableFor_nodup {s : SelState} {col : Nat} (hc : col < 9) :
    (availableFor s col).Nodup :=
  (rangeList_nodup col hc).filter _

theorem availableFor_length_ge {s : SelState} {col : Nat} (hc : col < 9)
    (hlen : (s.colNums.getD col []).length ≤ 3) :
    6 ≤ (availableFor s col).length := by
  have hpart := avail_partition (s.colNums.getD col []) (rangeList col)
  have hrem := avail_removed_le (s.colNums.getD col []) (rangeList col)
    (rangeList_nodup col hc)
  have h9 := rangeList_length col hc
  unfold availableFor
  omega

theorem getD_cons_set_perm :
    ∀ (t : List Int) (j : Nat) (h : Int), j < t.length →
      List.Perm (t.getD j 0 :: t.set j h) (h :: t)
  | [], _, _, hj => absurd hj (by simp)
  | u :: t', 0, h, _ => by
    simp only [List.getD_cons_zero, List.set]
    exact List.Perm.swap h u t'
  | u :: t', j + 1, h, hj => by
    simp only [List.getD_cons_succ, List.set]
    exact (List.Perm.swap u (t'.getD j 0) (t'.set j h)).trans
      (((getD_cons_set_perm t' j h (by simpa using hj)).cons u).trans
        (List.Perm.swap h u t'))

theorem listSwap_comm (a : List Int) (i j : Nat) :
    listSwap a i j = listSwap a j i := by
  unfold listSwap
  rcases eq_or_ne i j with rfl | hij
  · rfl
  · exact List.set_comm _ _ _ hij

theorem listSwap_perm_lt :
    ∀ (a : List Int) (i j : Nat), i < j → j < a.length →
      List.Perm (listSwap a i j) a
  | [], _, _, _, hj => absurd hj (by simp)
  | _ :: _, _, 0, hij, _ => absurd hij (by omega)
  | x :: xs, 0, j + 1, _, hj => by
    show List.Perm (((x :: xs).set 0 ((x :: xs).getD (j + 1) 0)).set (j + 1)
      ((x :: xs).getD 0 0)) (x :: xs)
    simp only [List.getD_cons_zero, List.getD_cons_succ, List.set]
    exact getD_cons_set_perm xs j x (by simpa using hj)
  | x :: xs, i + 1, j + 1, hij, hj => by
    show List.Perm (((x :: xs).set (i + 1) ((x :: xs).getD (j + 1) 0)).set (j + 1)
      ((x :: xs).getD (i + 1) 0)) (x :: xs)
    simp only [List.getD_cons_succ, List.set]
    exact (listSwap_perm_lt xs i j (by omega) (by simpa using hj)).cons x

theorem listSwap_perm (a : List Int) (i j : Nat) (hi : i < a.length)
    (hj : j < a.length) : List.Perm (listSwap a i j) a := by
  rcases Nat.lt_trichotomy i j with h | h | h
  · exact listSwap_perm_lt a i j h hj
  · subst h
    show List.Perm ((a.set i (a.getD i 0)).set i (a.getD i 0)) a
    rw [List.set_set, set_getD_self a i hi]
  · rw [listSwap_comm]
    exact listSwap_perm_lt a j i h hi

theorem shuffleGo_perm :
    ∀ (i : Nat) (a : List Int) (r : Rng), i < a.length →
      List.Perm (shuffleGo i a r).1 a
  | 0, a, _, _ => List.Perm.refl a
  | i + 1, a, r, hi => by
    show List.Perm (shuffleGo i (listSwap a (i + 1) (randBelow (i + 2) r).1)
      (randBelow (i + 2) r).2).1 a
    have hjlt : (randBelow (i + 2) r).1 < a.length := by
      have hm : (randBelow (i + 2) r).1 < i + 2 := Nat.mod_lt _ (by omega)
      omega
    have hswlen : (listSwap a (i + 1) (randBelow (i + 2) r).1).length =
        a.length := by
      show ((a.set (i + 1) (a.getD (randBelow (i + 2) r).1 0)).set
        (randBelow (i + 2) r).1 (a.getD (i + 1) 0)).length = a.length
      rw [List.length_set, List.length_set]
    exact (shuffleGo_perm i _ (randBelow (i + 2) r).2 (by omega)).trans
      (listSwap_perm a (i + 1) (randBelow (i + 2) r).1 hi hjlt)

theorem shuffleArray_perm (a : List Int) (r : Rng) :
    List.Perm (shuffleArray a r).1 a := by
  unfold shuffleArray
  cases a with
  | nil => exact List.Perm.refl _
  | cons x xs =>
    exact shuffleGo_perm ((x :: xs).length - 1) (x :: xs) r (by simp)

theorem getD_replicate {α : Type} (a d : α) :
    ∀ (n c : Nat), c < n → (List.replicate n a).getD c d = a
  | 0, _, h => absurd h (by omega)
  | _ + 1, 0, _ => rfl
  | n + 1, c + 1, h => getD_replicate a d n c (by omega)

/-- The state invariant of the selection phase: the bookkeeping fields agree
(`columnCounts` tracks the list lengths, `totalNumbers` their sum), no column
exceeds 3 numbers, the total never exceeds 15, and every chosen number is a
fresh number of its column's range. -/
structure SelInv (s : SelState) : Prop where
  nl : s.colNums.length = 9
  cl : s.colCounts.length = 9
  ul : s.used.length = 9
  tot : s.total = s.colCounts.sum
  le15 : s.total ≤ 15
  len : ∀ c < 9, (s.colNums.getD c []).length = s.colCounts.getD c 0
  cap : ∀ c < 9, s.colCounts.getD c 0 ≤ 3
  nd : ∀ c < 9, (s.colNums.getD c []).Nodup
  rng' : ∀ c < 9, ∀ n ∈ s.colNums.getD c [], n ∈ rangeList c

/-- During the first sweep, any column holding a number has been marked used
(`columnsToUse.add(col)` runs whenever numbers are added). -/
def UsedInv (s : SelState) : Prop :=
  ∀ c < 9, 0 < s.colCounts.getD c 0 → s.used.getD c false = true

theorem selInv_init (r : Rng) : SelInv (initSelState r) := by
  refine ⟨rfl, rfl, rfl, by simp [initSelState], by show (0 : Nat) ≤ 15; omega,
    ?_, ?_, ?_, ?_⟩
  · intro c hc
    show (List.getD (List.replicate 9 ([] : List Int)) c []).length =
      (List.replicate 9 (0 : Nat)).getD c 0
    rw [getD_replicate _ _ 9 c hc, getD_replicate _ _ 9 c hc]
    rfl
  · intro c hc
    show (List.replicate 9 (0 : Nat)).getD c 0 ≤ 3
    rw [getD_replicate _ _ 9 c hc]
    omega
  · intro c hc
    show (List.getD (List.replicate 9 ([] : List Int)) c []).Nodup
    rw [getD_replicate _ _ 9 c hc]
    exact List.nodup_nil
  · intro c hc n hn
    have hn' : n ∈ (List.replicate 9 ([] : List Int)).getD c [] := hn
    rw [getD_replicate _ _ 9 c hc] at hn'
    exact absurd hn' (List.not_mem_nil _)

theorem usedInv_init (r : Rng) : UsedInv (initSelState r) := by
  intro c hc h
  rw [show (initSelState r).colCounts.getD c 0 = 0
    from getD_replicate _ _ 9 c hc] at h
  omega

/-- Updating one column with `k` fresh numbers preserves the selection
invariant, whatever the new number list looks like, as long as it has the
right length and stays nodup and in range. -/
theorem selInv_update (s : SelState) (col : Nat) (hc : col < 9)
    (hinv : SelInv s) (newl : List Int) (k : Nat) (u2 : List Bool) (r2 : Rng)
    (hnew_len : newl.length = (s.colNums.getD col []).length + k)
    (hnew_nd : newl.Nodup)
    (hnew_rng : ∀ n ∈ newl, n ∈ rangeList col)
    (hk3 : s.colCounts.getD col 0 + k ≤ 3)
    (hk15 : s.total + k ≤ 15)
    (hu2 : u2.length = 9) :
    SelInv { colNums := s.colNums.set col newl,
             colCounts := s.colCounts.set col (s.colCounts.getD col 0 + k),
             total := s.total + k,
             used := u2, rng := r2 } := by
  refine ⟨?_, ?_, hu2, ?_, hk15, ?_, ?_, ?_, ?_⟩
  · show (s.colNums.set col newl).length = 9
    rw [List.length_set]
    exact hinv.nl
  · show (s.colCounts.set col (s.colCounts.getD col 0 + k)).length = 9
    rw [List.length_set]
    exact hinv.cl
  · show s.total + k = (s.colCounts.set col (s.colCounts.getD col 0 + k)).sum
    rw [sum_set_getD_add s.colCounts col k (by rw [hinv.cl]; omega), hinv.tot]
  · intro c hc'
    rcases eq_or_ne col c with rfl | hne
    · show ((s.colNums.set col newl).getD col []).length =
        (s.colCounts.set col (s.colCounts.getD col 0 + k)).getD col 0
      rw [getD_set_self _ _ _ _ (by rw [hinv.nl]; omega),
        getD_set_self _ _ _ _ (by rw [hinv.cl]; omega),
        hnew_len, hinv.len col hc]
    · show ((s.colNums.set col newl).getD c []).length =
        (s.colCounts.set col (s.colCounts.getD col 0 + k)).getD c 0
      rw [getD_set_ne _ _ _ _ _ hne, getD_set_ne _ _ _ _ _ hne]
      exact hinv.len c hc'
  · intro c hc'
    rcases eq_or_ne col c with rfl | hne
    · show (s.colCounts.set col (s.colCounts.getD col 0 + k)).getD col 0 ≤ 3
      rw [getD_set_self _ _ _ _ (by rw [hinv.cl]; omega)]
      exact hk3
    · show (s.colCounts.set col (s.colCounts.getD col 0 + k)).getD c 0 ≤ 3
      rw [getD_set_ne _ _ _ _ _ hne]
      exact hinv.cap c hc'
  · intro c hc'
    rcases eq_or_ne col c with rfl | hne
    · show ((s.colNums.set col newl).getD col []).Nodup
      rw [getD_set_self _ _ _ _ (by rw [hinv.nl]; omega)]
      exact hnew_nd
    · show ((s.colNums.set col newl).getD c []).Nodup
      rw [getD_set_ne _ _ _ _ _ hne]
      exact hinv.nd c hc'
  · intro c hc' n hn
    rcases eq_or_ne col c with rfl | hne
    · rw [show (s.colNums.set col newl).getD col [] = newl
        from getD_set_self _ _ _ _ (by rw [hinv.nl]; omega)] at hn
      exact hnew_rng n hn
    · rw [show (s.colNums.set col newl).getD c [] = s.colNums.getD c []
        from getD_set_ne _ _ _ _ _ hne] at hn
      exact hinv.rng' c hc' n hn

/-- `numbersToAdd` of one first-sweep column visit (lines 53-54). -/
def l1add (s : SelState) (col : Nat) : Nat :=
  min (min (3 - s.colCounts.getD col 0) (15 - s.total))
    ((randBelow 2 s.rng).1 + 1)

/-- `loop1Col` with its `let` chain unfolded. -/
theorem loop1Col_eq (s : SelState) (col : Nat) :
    loop1Col s col =
      (if s.colCounts.getD col 0 < 3 then
        (if l1add s col ≤ (availableFor s col).length then
          { colNums := s.colNums.set col (s.colNums.getD col [] ++
              sortInts ((shuffleArray (availableFor s col)
                (randBelow 2 s.rng).2).1.take (l1add s col))),
            colCounts := s.colCounts.set col
              (s.colCounts.getD col 0 + l1add s col),
            total := s.total + l1add s col,
            used := s.used.set col true,
            rng := (shuffleArray (availableFor s col) (randBelow 2 s.rng).2).2 }
        else
          { colNums := s.colNums.set col
              (s.colNums.getD col [] ++ sortInts (availableFor s col)),
            colCounts := (s.colCounts.set col
                (s.colCounts.getD col 0 + l1add s col)).set col
              ((s.colCounts.set col
                  (s.colCounts.getD col 0 + l1add s col)).getD col 0 -
                (l1add s col - (availableFor s col).length)),
            total := s.total + l1add s col -
              (l1add s col - (availableFor s col).length),
            used := s.used.set col true,
            rng := (randBelow 2 s.rng).2 })
      else s) := rfl

theorem loop1Col_spec (s : SelState) (col : Nat) (hc : col < 9)
    (hinv : SelInv s) (hu : UsedInv s) :
    SelInv (loop1Col s col) ∧ UsedInv (loop1Col s col) ∧
    s.total ≤ (loop1Col s col).total ∧
    (∀ c', s.used.getD c' false = true →
      (loop1Col s col).used.getD c' false = true) ∧
    (loop1Col s col).used.getD col false = true := by
  by_cases hcnt : s.colCounts.getD col 0 < 3
  case neg =>
    have he : loop1Col s col = s := by rw [loop1Col_eq, if_neg hcnt]
    rw [he]
    exact ⟨hinv, hu, le_refl _, fun c' h => h, hu col hc (by omega)⟩
  case pos =>
    have hlen := hinv.len col hc
    have hle15 := hinv.le15
    have havail : 6 ≤ (availableFor s col).length :=
      availableFor_length_ge hc (by rw [hlen]; omega)
    have hkbounds : l1add s col ≤ 3 - s.colCounts.getD col 0 ∧
        l1add s col ≤ 15 - s.total ∧ l1add s col ≤ 2 := by
      unfold l1add
      have hb : (randBelow 2 s.rng).1 < 2 := Nat.mod_lt _ (by omega)
      omega
    have hle : l1add s col ≤ (availableFor s col).length := by omega
    have he := loop1Col_eq s col
    rw [if_pos hcnt, if_pos hle] at he
    have hsh := shuffleArray_perm (availableFor s col) (randBelow 2 s.rng).2
    have hbatch_sub : ∀ n ∈ sortInts ((shuffleArray (availableFor s col)
        (randBelow 2 s.rng).2).1.take (l1add s col)), n ∈ availableFor s col := by
      intro n hn
      exact hsh.subset ((List.take_sublist _ _).subset ((sortInts_perm _).subset hn))
    have hbatch_nd : (sortInts ((shuffleArray (availableFor s col)
        (randBelow 2 s.rng).2).1.take (l1add s col))).Nodup :=
      ((sortInts_perm _).nodup_iff).mpr
        (List.Nodup.sublist (List.take_sublist _ _)
          (hsh.nodup_iff.mpr (availableFor_nodup hc)))
    have hbatch_len : (sortInts ((shuffleArray (availableFor s col)
        (randBelow 2 s.rng).2).1.take (l1add s col))).length = l1add s col := by
      rw [(sortInts_perm _).length_eq, List.length_take]
      have hl := hsh.length_eq
      omega
    have hnew_nd : (s.colNums.getD col [] ++
        sortInts ((shuffleArray (availableFor s col)
          (randBelow 2 s.rng).2).1.take (l1add s col))).Nodup := by
      rw [List.nodup_append]
      refine ⟨hinv.nd col hc, hbatch_nd, ?_⟩
      intro a ha hab
      exact (availableFor_mem a (hbatch_sub a hab)).2 ha
    have hnew_rng : ∀ n ∈ s.colNums.getD col [] ++
        sortInts ((shuffleArray (availableFor s col)
          (randBelow 2 s.rng).2).1.take (l1add s col)), n ∈ rangeList col := by
      intro n hn
      rcases List.mem_append.mp hn with h | h
      · exact hinv.rng' col hc n h
      · exact (availableFor_mem n (hbatch_sub n h)).1
    have hnew_len : (s.colNums.getD col [] ++
        sortInts ((shuffleArray (availableFor s col)
          (randBelow 2 s.rng).2).1.take (l1add s col))).length =
        (s.colNums.getD col []).length + l1add s col := by
      rw [List.length_append, hbatch_len]
    have hinv2 := selInv_update s col hc hinv _ (l1add s col)
      (s.used.set col true)
      ((shuffleArray (availableFor s col) (randBelow 2 s.rng).2).2)
      hnew_len hnew_nd hnew_rng (by omega) (by omega)
      (by rw [List.length_set]; exact hinv.ul)
    rw [he]
    refine ⟨hinv2, ?_, ?_, ?_, ?_⟩
    · intro c hc' hpos
      show (s.used.set col true).getD c false = true
      rcases eq_or_ne col c with rfl | hne
      · rw [getD_set_self _ _ _ _ (by rw [hinv.ul]; omega)]
      · rw [getD_set_ne _ _ _ _ _ hne]
        refine hu c hc' ?_
        have hpos' : 0 < (s.colCounts.set col
            (s.colCounts.getD col 0 + l1add s col)).getD c 0 := hpos
        rw [getD_set_ne _ _ _ _ _ hne] at hpos'
        exact hpos'
    · show s.total ≤ s.total + l1add s col
      omega
    · intro c' h
      show (s.used.set col true).getD c' false = true
      rcases eq_or_ne col c' with rfl | hne
      · rw [getD_set_self _ _ _ _ (by rw [hinv.ul]; omega)]
      · rw [getD_set_ne _ _ _ _ _ hne]
        exact h
    · show (s.used.set col true).getD col false = true
      rw [getD_set_self _ _ _ _ (by rw [hinv.ul]; omega)]

/-- The guarded per-column step of the first sweep
(`col < 9 && totalNumbers < targetNumbers` in the `for` header). -/
def loop1Step (s : SelState) (col : Nat) : SelState :=
  if s.total < 15 then loop1Col s col else s

theorem loop1Step_spec (s : SelState) (col : Nat) (hc : col < 9)
    (hinv : SelInv s) (hu : UsedInv s) :
    SelInv (loop1Step s col) ∧ UsedInv (loop1Step s col) ∧
    s.total ≤ (loop1Step s col).total ∧
    (∀ c', s.used.getD c' false = true →
      (loop1Step s col).used.getD c' false = true) ∧
    ((loop1Step s col).total < 15 →
      (loop1Step s col).used.getD col false = true) := by
  unfold loop1Step
  by_cases ht : s.total < 15
  · rw [if_pos ht]
    have h := loop1Col_spec s col hc hinv hu
    exact ⟨h.1, h.2.1, h.2.2.1, h.2.2.2.1, fun _ => h.2.2.2.2⟩
  · rw [if_neg ht]
    exact ⟨hinv, hu, le_refl _, fun c' h => h, fun hlt => absurd hlt (by omega)⟩

/-- One full sweep preserves the invariants, never decreases the total, never
unmarks a column, and — when the total is still short of 15 afterwards —
has marked every column it visited. -/
theorem pass_go_spec :
    ∀ (cols : List Nat) (s : SelState), (∀ c ∈ cols, c < 9) →
      SelInv s → UsedInv s →
      SelInv (cols.foldl loop1Step s) ∧ UsedInv (cols.foldl loop1Step s) ∧
      s.total ≤ (cols.foldl loop1Step s).total ∧
      (∀ c', s.used.getD c' false = true →
        (cols.foldl loop1Step s).used.getD c' false = true) ∧
      ((cols.foldl loop1Step s).total < 15 →
        ∀ c ∈ cols, (cols.foldl loop1Step s).used.getD c false = true)
  | [], s, _, hinv, hu =>
    ⟨hinv, hu, le_refl _, fun _ h => h,
      fun _ c hcmem => absurd hcmem (List.not_mem_nil _)⟩
  | col :: cols, s, hmem, hinv, hu => by
    have hc := hmem col (List.mem_cons_self _ _)
    have h1 := loop1Step_spec s col hc hinv hu
    have ih := pass_go_spec cols (loop1Step s col)
      (fun c hm => hmem c (List.mem_cons_of_mem _ hm)) h1.1 h1.2.1
    rw [List.foldl_cons]
    refine ⟨ih.1, ih.2.1, le_trans h1.2.2.1 ih.2.2.1,
      fun c' h => ih.2.2.2.1 c' (h1.2.2.2.1 c' h), ?_⟩
    intro hlt c hcm
    rcases List.mem_cons.mp hcm with rfl | hcm'
    · have hstep_lt : (loop1Step s c).total < 15 := by
        have := ih.2.2.1
        omega
      exact ih.2.2.2.1 c (h1.2.2.2.2 hstep_lt)
    · exact ih.2.2.2.2 hlt c hcm'

theorem used_count_full {l : List Bool} (hl : l.length = 9)
    (hall : ∀ c < 9, l.getD c false = true) : (l.count true == 9) = true := by
  have hrep : l = List.replicate 9 true := by
    rw [List.eq_replicate_iff]
    refine ⟨hl, ?_⟩
    intro b hb
    rcases List.getElem_of_mem hb with ⟨i, hi, he⟩
    have hx := hall i (by omega)
    rw [List.getD_eq_getElem _ _ hi] at hx
    rw [← he, hx]
  rw [hrep]
  rfl

/-- `loop1` returns within fuel 40 from any invariant state: a sweep that
still falls short of 15 has visited (and marked) all nine columns, firing
the `columnsToUse.size === 9` safety break. -/
theorem loop1_total (s : SelState) (hinv : SelInv s) (hu : UsedInv s) :
    ∃ s', loop1 40 s = some s' ∧ SelInv s' := by
  have hstep1 : loop1 40 s = (if 15 ≤ s.total then some s
      else if (loop1Pass s).used.count true == 9 then some (loop1Pass s)
      else loop1 39 (loop1Pass s)) := rfl
  by_cases ht : 15 ≤ s.total
  · rw [hstep1, if_pos ht]
    exact ⟨s, rfl, hinv⟩
  · have hpass := pass_go_spec (List.range 9) s
      (fun c hm => List.mem_range.mp hm) hinv hu
    have hinv1 : SelInv (loop1Pass s) := hpass.1
    by_cases ht1 : (loop1Pass s).total < 15
    · have hall : ∀ c < 9, (loop1Pass s).used.getD c false = true := by
        intro c hc
        exact hpass.2.2.2.2 ht1 c (List.mem_range.mpr hc)
      have hcnt := used_count_full hinv1.ul hall
      rw [hstep1, if_neg ht, if_pos hcnt]
      exact ⟨loop1Pass s, rfl, hinv1⟩
    · rw [hstep1, if_neg ht]
      by_cases hcnt : ((loop1Pass s).used.count true == 9) = true
      · rw [if_pos hcnt]
        exact ⟨loop1Pass s, rfl, hinv1⟩
      · rw [if_neg hcnt]
        have hstep2 : loop1 39 (loop1Pass s) =
            (if 15 ≤ (loop1Pass s).total then some (loop1Pass s)
            else if (loop1Pass (loop1Pass s)).used.count true == 9 then
              some (loop1Pass (loop1Pass s))
            else loop1 38 (loop1Pass (loop1Pass s))) := rfl
        rw [hstep2, if_pos (by omega)]
        exact ⟨loop1Pass s, rfl, hinv1⟩

theorem map_getD_rangeN : ∀ l : List Nat,
    (List.range l.length).map (fun c => l.getD c 0) = l
  | [] => rfl
  | x :: xs => by
    rw [List.length_cons, List.range_succ_eq_map]
    simp only [List.map_cons, List.getD_cons_zero, List.map_map]
    congr 1
    have he : ((fun c => (x :: xs).getD c 0) ∘ Nat.succ) =
        fun c => xs.getD c 0 := by
      funext c
      simp [List.getD_cons_succ]
    rw [he, map_getD_rangeN xs]

/-- While the total is short of 15, the top-up loop body always finds a
column with spare capacity and an unused in-range number, and adds exactly
one number there. -/
theorem loop2Step_total (s : SelState) (hinv : SelInv s) (ht : s.total < 15) :
    ∃ s', loop2Step s = some s' ∧ SelInv s' ∧ s'.total = s.total + 1 := by
  have hex : ∃ c0, c0 < 9 ∧ s.colCounts.getD c0 0 < 3 := by
    by_contra hno
    push_neg at hno
    have hmap : (List.range 9).map (fun c => s.colCounts.getD c 0) =
        s.colCounts := by
      rw [show (9 : Nat) = s.colCounts.length from hinv.cl.symm]
      exact map_getD_rangeN s.colCounts
    have hmap3 : (List.range 9).map (fun c => s.colCounts.getD c 0) =
        (List.range 9).map (fun _ => 3) := by
      refine List.map_congr_left ?_
      intro c hcm
      have hc9 := List.mem_range.mp hcm
      exact le_antisymm (hinv.cap c hc9) (hno c hc9)
    have hsum : s.colCounts.sum = 27 := by
      rw [← hmap, hmap3]
      rfl
    have := hinv.tot
    omega
  rcases hex with ⟨c0, hc0, hcnt0⟩
  have h6 : 6 ≤ (availableFor s c0).length :=
    availableFor_length_ge hc0 (by rw [hinv.len c0 hc0]; omega)
  have hfound : ((List.range 9).find? (fun c =>
      s.colCounts.getD c 0 < 3 && !(availableFor s c).isEmpty)).isSome = true := by
    rw [List.find?_isSome]
    refine ⟨c0, List.mem_range.mpr hc0, ?_⟩
    simp only [Bool.and_eq_true, decide_eq_true_eq, Bool.not_eq_true']
    refine ⟨hcnt0, ?_⟩
    cases hA : availableFor s c0 with
    | nil =>
      rw [hA] at h6
      exact absurd h6 (by simp)
    | cons a as => rfl
  rcases Option.isSome_iff_exists.mp hfound with ⟨c, hfind⟩
  have hcp := List.find?_some hfind
  have hc9 : c < 9 := List.mem_range.mp (List.mem_of_find?_eq_some hfind)
  simp only [Bool.and_eq_true, decide_eq_true_eq, Bool.not_eq_true'] at hcp
  have hlenp : 0 < (availableFor s c).length := by
    cases hA : availableFor s c with
    | nil =>
      rw [hA] at hcp
      exact absurd hcp.2 (by simp)
    | cons a as => simp
  have hjlt : (randBelow (availableFor s c).length s.rng).1 <
      (availableFor s c).length := Nat.mod_lt _ (by omega)
  have hnmem : (availableFor s c).getD
      (randBelow (availableFor s c).length s.rng).1 0 ∈ availableFor s c := by
    rw [List.getD_eq_getElem _ _ hjlt]
    exact List.getElem_mem _
  have hnav := availableFor_mem _ hnmem
  have hstep : loop2Step s = some
      { colNums := s.colNums.set c (sortInts (s.colNums.getD c [] ++
          [(availableFor s c).getD (randBelow (availableFor s c).length s.rng).1 0])),
        colCounts := s.colCounts.set c (s.colCounts.getD c 0 + 1),
        total := s.total + 1,
        used := s.used,
        rng := (randBelow (availableFor s c).length s.rng).2 } := by
    unfold loop2Step
    rw [hfind]
  refine ⟨_, hstep, ?_, rfl⟩
  refine selInv_update s c hc9 hinv _ 1 s.used
    (randBelow (availableFor s c).length s.rng).2 ?_ ?_ ?_ (by omega) (by omega)
    hinv.ul
  · rw [(sortInts_perm _).length_eq, List.length_append]
    rfl
  · refine ((sortInts_perm _).nodup_iff).mpr ?_
    rw [List.nodup_append]
    refine ⟨hinv.nd c hc9, List.nodup_singleton _, ?_⟩
    intro a ha hab
    rw [List.mem_singleton] at hab
    subst hab
    exact hnav.2 ha
  · intro n hn
    have hn' := (sortInts_perm _).subset hn
    rcases List.mem_append.mp hn' with h | h
    · exact hinv.rng' c hc9 n h
    · rw [List.mem_singleton] at h
      subst h
      exact hnav.1

theorem loop2_total : ∀ (fuel : Nat) (s : SelState), SelInv s →
    15 < s.total + fuel →
    ∃ s', loop2 fuel s = some s' ∧ SelInv s' ∧ s'.total = 15
  | 0, s, hinv, hf => absurd hf (by have := hinv.le15; omega)
  | fuel + 1, s, hinv, hf => by
    have he : loop2 (fuel + 1) s = (if 15 ≤ s.total then some s
        else match loop2Step s with
          | none => none
          | some s2 => loop2 fuel s2) := rfl
    by_cases ht : 15 ≤ s.total
    · refine ⟨s, ?_, hinv, by have := hinv.le15; omega⟩
      rw [he, if_pos ht]
    · rcases loop2Step_total s hinv (by omega) with ⟨s2, hs2, hinv2, htot2⟩
      rcases loop2_total fuel s2 hinv2 (by omega) with ⟨s', hs', hinv', htot'⟩
      refine ⟨s', ?_, hinv', htot'⟩
      rw [he, if_neg ht, hs2]
      exact hs'

theorem loop3_immediate (s : SelState) (hle : s.total ≤ 15) :
    loop3 40 s = some s := by
  have he : loop3 40 s = (if s.total ≤ 15 then some s
      else match loop3Step s with
        | none => none
        | some s2 => loop3 39 s2) := rfl
  rw [he, if_pos hle]

/-- The whole selection phase succeeds on every random stream, with the
invariants and exactly 15 chosen numbers. -/
theorem selectNumbers_total (r : Rng) :
    ∃ s, selectNumbers r = some s ∧ SelInv s ∧ s.total = 15 := by
  rcases loop1_total (initSelState r) (selInv_init r) (usedInv_init r) with
    ⟨s1, h1, hinv1⟩
  rcases loop2_total 40 s1 hinv1 (by have := hinv1.le15; omega) with
    ⟨s2, h2, hinv2, ht2⟩
  refine ⟨s2, ?_, hinv2, ht2⟩
  unfold selectNumbers
  rw [h1]
  show (loop2 40 s1 >>= loop3 40) = some s2
  rw [h2]
  show loop3 40 s2 = some s2
  exact loop3_immediate s2 hinv2.le15

/-! ## The collected `allNumbers` list of a successful selection -/

theorem insertByCol_perm (p : Int × Nat) :
    ∀ l : List (Int × Nat), List.Perm (insertByCol p l) (p :: l)
  | [] => List.Perm.refl _
  | q :: qs => by
    unfold insertByCol
    split
    · exact List.Perm.refl _
    · exact ((insertByCol_perm p qs).cons q).trans (List.Perm.swap p q qs)

theorem sortPairsByCol_perm :
    ∀ l : List (Int × Nat), List.Perm (sortPairsByCol l) l
  | [] => List.Perm.refl _
  | p :: ps =>
    (insertByCol_perm p (sortPairsByCol ps)).trans ((sortPairsByCol_perm ps).cons p)

theorem insertByCol_sorted (p : Int × Nat) :
    ∀ l : List (Int × Nat), List.Pairwise (fun a b => a.2 ≤ b.2) l →
      List.Pairwise (fun a b => a.2 ≤ b.2) (insertByCol p l)
  | [], _ => List.pairwise_singleton _ _
  | q :: qs, hs => by
    unfold insertByCol
    rcases List.pairwise_cons.mp hs with ⟨hq, hqs⟩
    split
    · next hpq =>
      rw [List.pairwise_cons]
      refine ⟨?_, hs⟩
      intro b hb
      rcases List.mem_cons.mp hb with rfl | hbq
      · exact hpq
      · exact le_trans hpq (hq b hbq)
    · next hpq =>
      rw [List.pairwise_cons]
      refine ⟨?_, insertByCol_sorted p qs hqs⟩
      intro b hb
      rcases List.mem_cons.mp ((insertByCol_perm p qs).subset hb) with rfl | hbq
      · omega
      · exact hq b hbq

theorem sortPairsByCol_sorted :
    ∀ l : List (Int × Nat),
      List.Pairwise (fun a b => a.2 ≤ b.2) (sortPairsByCol l)
  | [] => List.Pairwise.nil
  | p :: ps => insertByCol_sorted p (sortPairsByCol ps) (sortPairsByCol_sorted ps)

theorem countP_col_flatMap_notMem (g : Nat → List Int) (c : Nat) :
    ∀ cs : List Nat, c ∉ cs →
      (cs.flatMap (fun c' => (g c').map (fun n => (n, c')))).countP
        (fun p => p.2 == c) = 0
  | [], _ => rfl
  | c' :: cs, hnm => by
    rw [List.flatMap_cons, List.countP_append, List.countP_map,
      countP_col_flatMap_notMem g c cs (fun h => hnm (List.mem_cons_of_mem _ h))]
    have hz : List.countP ((fun p : Int × Nat => p.2 == c) ∘ fun n => (n, c'))
        (g c') = 0 := by
      have hcongr : List.countP
          ((fun p : Int × Nat => p.2 == c) ∘ fun n => (n, c')) (g c') =
          List.countP (fun _ => false) (g c') := by
        apply List.countP_congr
        intro n _
        have hne : c' ≠ c := fun h => hnm (h ▸ List.mem_cons_self _ _)
        simp [hne]
      rw [hcongr, List.countP_false]
      rfl
    omega

theorem countP_col_flatMap (g : Nat → List Int) (c : Nat) :
    ∀ cs : List Nat, cs.Nodup → c ∈ cs →
      (cs.flatMap (fun c' => (g c').map (fun n => (n, c')))).countP
        (fun p => p.2 == c) = (g c).length
  | [], _, hm => absurd hm (List.not_mem_nil _)
  | c' :: cs, hnd, hm => by
    rw [List.flatMap_cons, List.countP_append, List.countP_map]
    rcases List.mem_cons.mp hm with rfl | hm'
    · rw [countP_col_flatMap_notMem g c cs (List.nodup_cons.mp hnd).1]
      have ho : List.countP ((fun p : Int × Nat => p.2 == c) ∘ fun n => (n, c))
          (g c) = (g c).length := by
        have hcongr : List.countP
            ((fun p : Int × Nat => p.2 == c) ∘ fun n => (n, c)) (g c) =
            List.countP (fun _ => true) (g c) := by
          apply List.countP_congr
          intro n _
          simp
        rw [hcongr]
        simp [List.countP_true]
      omega
    · have hne : c' ≠ c := by
        intro h
        subst h
        exact (List.nodup_cons.mp hnd).1 hm'
      have hz : List.countP ((fun p : Int × Nat => p.2 == c) ∘ fun n => (n, c'))
          (g c') = 0 := by
        have hcongr : List.countP
            ((fun p : Int × Nat => p.2 == c) ∘ fun n => (n, c')) (g c') =
            List.countP (fun _ => false) (g c') := by
          apply List.countP_congr
          intro n _
          simp [hne]
        rw [hcongr, List.countP_false]
        rfl
      rw [hz, countP_col_flatMap g c cs (List.nodup_cons.mp hnd).2 hm']
      omega

theorem nodup_flatMap_cols (g : Nat → List Int) :
    ∀ cs : List Nat, cs.Nodup → (∀ c ∈ cs, c < 9) →
      (∀ c ∈ cs, (g c).Nodup) →
      (∀ c ∈ cs, ∀ n ∈ g c, n ∈ rangeList c) →
      (cs.flatMap g).Nodup
  | [], _, _, _, _ => List.nodup_nil
  | c' :: cs, hnd, h9, hgnd, hrng => by
    rw [List.flatMap_cons, List.nodup_append]
    refine ⟨hgnd c' (List.mem_cons_self _ _),
      nodup_flatMap_cols g cs (List.nodup_cons.mp hnd).2
        (fun c h => h9 c (List.mem_cons_of_mem _ h))
        (fun c h => hgnd c (List.mem_cons_of_mem _ h))
        (fun c h => hrng c (List.mem_cons_of_mem _ h)), ?_⟩
    intro a ha hab
    rcases List.mem_flatMap.mp hab with ⟨c, hcm, hac⟩
    have hc9 : c < 9 := h9 c (List.mem_cons_of_mem _ hcm)
    have hc'9 : c' < 9 := h9 c' (List.mem_cons_self _ _)
    have hb1 := (mem_rangeList hc'9).mp
      (hrng c' (List.mem_cons_self _ _) a ha)
    have hb2 := (mem_rangeList hc9).mp
      (hrng c (List.mem_cons_of_mem _ hcm) a hac)
    have := ranges_disjoint hc'9 hc9 hb1.1 hb1.2 hb2.1 hb2.2
    subst this
    exact (List.nodup_cons.mp hnd).1 hcm

/-- The sorted `allNumbers` list built from a completed selection:
column-sorted, at most 3 entries per column, 15 entries, positive in-range
numbers, no duplicates. -/
theorem buildAllNumbers_facts (s : SelState) (hinv : SelInv s)
    (ht : s.total = 15) :
    List.Pairwise (fun p q => p.2 ≤ q.2) (buildAllNumbers s.colNums) ∧
    (∀ c < 9, (buildAllNumbers s.colNums).countP (fun p => p.2 == c) ≤ 3) ∧
    (buildAllNumbers s.colNums).length = 15 ∧
    (∀ p ∈ buildAllNumbers s.colNums, 0 < p.1 ∧ p.2 < 9) ∧
    ((buildAllNumbers s.colNums).map Prod.fst).Nodup ∧
    (∀ p ∈ buildAllNumbers s.colNums, p.1 ∈ rangeList p.2) := by
  have hperm : List.Perm (buildAllNumbers s.colNums)
      ((List.range 9).flatMap
        (fun c => (s.colNums.getD c []).map (fun n => (n, c)))) :=
    sortPairsByCol_perm _
  have hmemraw : ∀ p ∈ buildAllNumbers s.colNums,
      p.2 < 9 ∧ p.1 ∈ s.colNums.getD p.2 [] := by
    intro p hp
    rcases List.mem_flatMap.mp (hperm.subset hp) with ⟨c, hcm, hpc⟩
    rcases List.mem_map.mp hpc with ⟨n, hn, he⟩
    have hc9 := List.mem_range.mp hcm
    rw [← he]
    exact ⟨hc9, hn⟩
  refine ⟨sortPairsByCol_sorted _, ?_, ?_, ?_, ?_, ?_⟩
  · intro c hc
    rw [hperm.countP_eq,
      countP_col_flatMap _ c (List.range 9) (List.nodup_range 9)
        (List.mem_range.mpr hc),
      hinv.len c hc]
    exact hinv.cap c hc
  · rw [hperm.length_eq, List.length_flatMap]
    have hmapeq : (List.range 9).map
        (List.length ∘ fun c => (s.colNums.getD c []).map (fun n => (n, c))) =
        (List.range 9).map (fun c => s.colCounts.getD c 0) := by
      refine List.map_congr_left ?_
      intro c hcm
      have hc9 := List.mem_range.mp hcm
      simp only [Function.comp_apply, List.length_map]
      exact hinv.len c hc9
    rw [hmapeq, show (9 : Nat) = s.colCounts.length from hinv.cl.symm,
      map_getD_rangeN, ← hinv.tot, ht]
  · intro p hp
    rcases hmemraw p hp with ⟨hc9, hmem⟩
    have hr := hinv.rng' p.2 hc9 p.1 hmem
    have hb := (mem_rangeList hc9).mp hr
    have hlo := (range_bounds p.2 hc9).1
    exact ⟨by omega, hc9⟩
  · refine ((hperm.map Prod.fst).nodup_iff).mpr ?_
    rw [List.map_flatMap]
    have hfun : ∀ c : Nat,
        ((s.colNums.getD c []).map (fun n => (n, c))).map Prod.fst =
        s.colNums.getD c [] := by
      intro c
      rw [List.map_map]
      rw [show (Prod.fst ∘ fun n : Int => (n, c)) = id from rfl, List.map_id]
    have heq : (List.range 9).flatMap
        (fun c => ((s.colNums.getD c []).map (fun n => (n, c))).map Prod.fst) =
        (List.range 9).flatMap (fun c => s.colNums.getD c []) := by
      congr 1
      funext c
      exact hfun c
    rw [heq]
    exact nodup_flatMap_cols _ (List.range 9) (List.nodup_range 9)
      (fun c h => List.mem_range.mp h)
      (fun c h => hinv.nd c (List.mem_range.mp h))
      (fun c h => hinv.rng' c (List.mem_range.mp h))
  · intro p hp
    rcases hmemraw p hp with ⟨hc9, hmem⟩
    exact hinv.rng' p.2 hc9 p.1 hmem

/-! ## From the placement to the grid-level invariants -/

theorem placeOne_shape {st : PlaceState} {p : Int × Nat}
    (hs : GridShape st.grid) : GridShape (placeOne st p).grid := by
  unfold placeOne
  cases hf : findBestRow st.rowCounts (freeAt st.grid p.2) with
  | none => exact hs
  | some r => exact setCell_shape hs (findBestRow_spec hf).1

/-- The greedy placement keeps the grid-level row counts in sync with its
`rowCounts` bookkeeping: a number is only ever written into a free cell. -/
theorem placeAll_row_sync :
    ∀ (nums : List (Int × Nat)) (st : PlaceState),
      GridShape st.grid → st.rowCounts.length = 3 →
      (∀ p ∈ nums, 0 < p.1 ∧ p.2 < 9) →
      (∀ r < 3, rowNumbersCount st.grid r = st.rowCounts.getD r 0) →
      ∀ r < 3, rowNumbersCount (placeAll nums st).grid r =
        (placeAll nums st).rowCounts.getD r 0
  | [], _, _, _, _, hsync => hsync
  | p :: rest, st, hs, hlen3, hmem, hsync => by
    have hp := hmem p (List.mem_cons_self _ _)
    have hs1 : GridShape (placeOne st p).grid := placeOne_shape hs
    have hlen1 : (placeOne st p).rowCounts.length = 3 := by
      unfold placeOne
      cases hf : findBestRow st.rowCounts (freeAt st.grid p.2) with
      | none => exact hlen3
      | some r =>
        show (st.rowCounts.set r _).length = 3
        rw [List.length_set]
        exact hlen3
    have hsync1 : ∀ r < 3, rowNumbersCount (placeOne st p).grid r =
        (placeOne st p).rowCounts.getD r 0 := by
      intro r hr
      unfold placeOne
      cases hf : findBestRow st.rowCounts (freeAt st.grid p.2) with
      | none => exact hsync r hr
      | some r0 =>
        rcases findBestRow_spec hf with ⟨hr0, _, hfree⟩
        have hcell0 : cell st.grid r0 p.2 = 0 := by
          rw [freeAt_getD hr0] at hfree
          simpa using hfree
        rcases eq_or_ne r0 r with rfl | hrr
        · show rowNumbersCount (setCell st.grid r0 p.2 p.1) r0 =
            (st.rowCounts.set r0 (st.rowCounts.getD r0 0 + 1)).getD r0 0
          rw [rowNumbersCount_setCell_same hs hr0 hp.2 hcell0 (by omega),
            getD_set_self _ _ _ _ (by rw [hlen3]; omega), hsync r0 hr0]
        · show rowNumbersCount (setCell st.grid r0 p.2 p.1) r =
            (st.rowCounts.set r0 (st.rowCounts.getD r0 0 + 1)).getD r 0
          rw [rowNumbersCount_setCell_other hrr,
            getD_set_ne _ _ _ _ _ hrr]
          exact hsync r hr
    exact placeAll_row_sync rest (placeOne st p) hs1 hlen1
      (fun q hq => hmem q (List.mem_cons_of_mem _ hq)) hsync1

/-- Every cell the placement fills holds one of the processed numbers, in
that number's own column. -/
theorem placeAll_cell_src :
    ∀ (nums : List (Int × Nat)) (st : PlaceState) (rr cc : Nat),
      GridShape st.grid → (∀ p ∈ nums, p.2 < 9) → rr < 3 → cc < 9 →
      cell (placeAll nums st).grid rr cc = cell st.grid rr cc ∨
      ∃ p ∈ nums, p.2 = cc ∧ cell (placeAll nums st).grid rr cc = p.1
  | [], _, _, _, _, _, _, _ => Or.inl rfl
  | p :: rest, st, rr, cc, hs, hmem, hrr, hcc => by
    have hpo : placeOne st p = st ∨
        ∃ r0, r0 < 3 ∧ placeOne st p = PlaceState.mk
          (setCell st.grid r0 p.2 p.1)
          (st.rowCounts.set r0 (st.rowCounts.getD r0 0 + 1)) := by
      unfold placeOne
      cases hf : findBestRow st.rowCounts (freeAt st.grid p.2) with
      | none => exact Or.inl rfl
      | some r0 => exact Or.inr ⟨r0, (findBestRow_spec hf).1, rfl⟩
    have hih := placeAll_cell_src rest (placeOne st p) rr cc (placeOne_shape hs)
      (fun q hq => hmem q (List.mem_cons_of_mem _ hq)) hrr hcc
    rw [show placeAll (p :: rest) st = placeAll rest (placeOne st p) from rfl]
    rcases hih with heq | ⟨q, hq, hqc, hqv⟩
    · rcases hpo with hid | ⟨r0, hr0, hset⟩
      · rw [hid] at heq
        rw [hid]
        exact Or.inl heq
      · rw [hset] at heq
        rw [hset]
        by_cases hsame : r0 = rr ∧ p.2 = cc
        · refine Or.inr ⟨p, List.mem_cons_self _ _, hsame.2, ?_⟩
          rw [heq]
          show cell (setCell st.grid r0 p.2 p.1) rr cc = p.1
          rw [← hsame.1, ← hsame.2]
          exact cell_setCell_eq p.1 hs hr0 (hmem p (List.mem_cons_self _ _))
        · rw [not_and_or] at hsame
          refine Or.inl ?_
          rw [heq]
          show cell (setCell st.grid r0 p.2 p.1) rr cc = cell st.grid rr cc
          exact cell_setCell_ne p.1 hsame
    · exact Or.inr ⟨q, List.mem_cons_of_mem _ hq, hqc, hqv⟩

theorem colNumbersCount_le_three {g : Grid} (hs : GridShape g) (c : Nat) :
    colNumbersCount g c ≤ 3 := by
  unfold colNumbersCount
  exact le_trans (List.length_filter_le _ _) (le_of_eq hs.1)

/-- Converse of the self-check extraction: a grid satisfying the five
checked properties sails through `validateTicket`. -/
theorem validateTicketE_ok_of {g : Grid}
    (h1 : ∀ r < 3, rowNumbersCount g r = 5)
    (h2 : ∀ c < 9, colNumbersCount g c ≤ 3)
    (h3 : (allNumbersOf g).length = 15)
    (h4 : CellsInRange g)
    (h5 : (allNumbersOf g).Nodup) :
    validateTicketE g = .ok () := by
  have e1 : (List.range 3).find? (fun r => rowNumbersCount g r != 5) = none := by
    rw [List.find?_eq_none]
    intro r hr
    rw [h1 r (List.mem_range.mp hr)]
    simp
  have e2 : (List.range 9).find? (fun c => 3 < colNumbersCount g c) = none := by
    rw [List.find?_eq_none]
    intro c hc
    have := h2 c (List.mem_range.mp hc)
    simp only [decide_eq_true_eq]
    omega
  have e4 : (List.range 9).find? (fun c => (rangeViolation g c).isSome) =
      none := by
    rw [List.find?_eq_none]
    intro c hc
    have hc9 := List.mem_range.mp hc
    have hnone : rangeViolation g c = none := by
      unfold rangeViolation
      rw [List.find?_eq_none]
      intro r hrm
      have hr3 := List.mem_range.mp hrm
      simp only [bne_iff_ne, ne_eq, Bool.and_eq_true, decide_eq_true_eq,
        Bool.or_eq_true, not_and, not_or]
      intro hne
      have := h4 c hc9 r hr3 hne
      exact ⟨by omega, by omega⟩
    rw [hnone]
    simp
  unfold validateTicketE
  rw [e1, e2, e4, List.dedup_eq_self.mpr h5, h3]
  rfl

/-! ## The generator never throws -/

/-- `generateHousieTicket` returns on every random stream: the selection
loops terminate, and the placed grid passes the final self-check. -/
theorem generateHousieTicket_total (r : Rng) :
    ∃ t, generateHousieTicket r = .ok t := by
  rcases selectNumbers_total r with ⟨s, hsel, hinv, ht15⟩
  obtain ⟨hsort, hcol, hlen, hmem, hndfst, hrng⟩ := buildAllNumbers_facts s hinv ht15
  have hfresh : ∀ p ∈ buildAllNumbers s.colNums, ∀ r' < 3,
      cell emptyGrid r' p.2 = 0 := fun p _ r' _ => cell_emptyGrid r' p.2
  have hmaster := placeAll_strong 15 (buildAllNumbers s.colNums)
    ⟨emptyGrid, [0, 0, 0]⟩ (by omega) hsort hcol hmem gridShape_empty rfl
    (by simp) (by simp) (by simp) (by decide) (by simp [hlen]) hfresh
  set G := (placeAll (buildAllNumbers s.colNums) ⟨emptyGrid, [0, 0, 0]⟩).grid
    with hG
  have hshape : GridShape G := placeAll_shape _ _ gridShape_empty
  have hperm : List.Perm (extractFlat G)
      ((buildAllNumbers s.colNums).map Prod.fst) := by
    have h2 := hmaster.2
    rw [show extractFlat emptyGrid = [] from rfl, List.append_nil] at h2
    exact h2
  have hsync := placeAll_row_sync (buildAllNumbers s.colNums)
    ⟨emptyGrid, [0, 0, 0]⟩ gridShape_empty rfl hmem
    (by intro rr hrr; interval_cases rr <;> rfl)
  have hrows : ∀ rr < 3, rowNumbersCount G rr = 5 := by
    intro rr hrr
    rw [hsync rr hrr, hmaster.1]
    interval_cases rr <;> rfl
  have hall_eq := extractFlat_eq_allNumbers hshape
  have htot : (allNumbersOf G).length = 15 := by
    rw [← hall_eq, hperm.length_eq, List.length_map, hlen]
  have hnd : (allNumbersOf G).Nodup := by
    rw [← hall_eq]
    exact hperm.nodup_iff.mpr hndfst
  have hcir : CellsInRange G := by
    intro c hc rr hrr hne
    rcases placeAll_cell_src (buildAllNumbers s.colNums) ⟨emptyGrid, [0, 0, 0]⟩
      rr c gridShape_empty (fun p hp => (hmem p hp).2) hrr hc with
      heq | ⟨p, hp, hpc, hpv⟩
    · exact absurd (heq.trans (cell_emptyGrid rr c)) hne
    · have hin := (mem_rangeList hc).mp
        (show p.1 ∈ rangeList c by rw [← hpc]; exact hrng p hp)
      rw [hpv]
      exact hin
  have hcols : ∀ c < 9, colNumbersCount G c ≤ 3 :=
    fun c _ => colNumbersCount_le_three hshape c
  have hok : validateTicketE G = .ok () :=
    validateTicketE_ok_of hrows hcols htot hcir hnd
  refine ⟨⟨placedGrid s, sortInts (extractFlat (placedGrid s))⟩, ?_⟩
  have hgen : generateHousieTicket r =
      (match validateTicketE (placedGrid s) with
        | .error e => .error e
        | .ok _ => .ok ⟨placedGrid s, sortInts (extractFlat (placedGrid s))⟩) := by
    unfold generateHousieTicket
    rw [hsel]
  have hok' : validateTicketE (placedGrid s) = .ok () := hok
  rw [hgen, hok']

/-- C6 (amended): reconstructing a grid from a 15-element flat list that
violates the at-most-3-per-column invariant never raises an error:
`convertFlatToGrid` discards the input and returns the grid of a fresh
`generateHousieTicket` call — which never throws — and that grid satisfies
invariants 1-5; invariant 6 (ascending within columns) can fail, as the
counterexample shows. -/
theorem convertFlatToGrid_regenerates (nums : List Int) (r : Rng)
    (hlen : nums.length = 15)
    (hover : ∃ c < 9, 3 < (bucketCounts nums).getD c 0) :
    ∃ t, generateHousieTicket r = .ok t ∧
      convertFlatToGrid nums r = .ok t.grid ∧
      TotalIs15 t.grid ∧ RowsHave5 t.grid ∧ ColsAtMost3 t.grid ∧
      CellsInRange t.grid ∧ AllDistinct t.grid := by
  rcases generateHousieTicket_total r with ⟨t, hgen⟩
  refine ⟨t, hgen, ?_,
    validateTicketE_ok_invariants (generateHousieTicket_ok_elim hgen).1⟩
  unfold convertFlatToGrid
  rw [if_neg (by omega), hgen]

/-- Witness for C6 (amended): the overflowing `badFlat` list (column 1 holds
nine numbers) and the all-ones stream. -/
theorem convertFlatToGrid_regenerates_witness :
    ∃ t, generateHousieTicket wRng = .ok t ∧
      convertFlatToGrid badFlat wRng = .ok t.grid ∧
      TotalIs15 t.grid ∧ RowsHave5 t.grid ∧ ColsAtMost3 t.grid ∧
      CellsInRange t.grid ∧ AllDistinct t.grid :=
  convertFlatToGrid_regenerates badFlat wRng (by decide)
    ⟨0, by decide, by decide⟩

end Housie
